import Mathlib

/-!
Shallow embedding of the PFE backend core in Lean 4, translated from
`backend/data_store.py`, `backend/websocket_manager.py` and
`backend/models.py`.

Modelling conventions:
* Python `datetime` values are modelled as `Nat` ticks; `datetime.utcnow()`
  becomes an explicit `now : Nat` argument of the operation that calls it.
* Python `float` channel values are modelled as `Int`: none of the verified
  operations performs arithmetic on them, they are only stored and compared.
* A Python `dict` (insertion ordered) is an association list
  `List (String × α)`; `defaultdict` access that auto-inserts a default value
  is `dictGetDefault`, which returns both the value and the possibly-extended
  dictionary.
* A `deque(maxlen=N)` is a `List` whose `append` is `boundedAppend N`,
  dropping from the left when capacity is exceeded (as CPython does).
* `AlarmData` objects are mutable Python objects aliased between the
  per-machine alarm-history deque and the active-alarm registry
  (`add_alarm_data` appends the same object to both, and
  `acknowledge_alarm` / `resolve_alarm` mutate it in place).  The embedding
  therefore gives them heap semantics: a store-owned `heap : List AlarmData`
  of object cells, with both containers holding `Nat` references into it.
  `ProcessData` and the other record kinds are never mutated by the store,
  so plain value semantics is observationally equivalent for them.
-/

/-- `models.AlarmSeverity`. -/
inductive AlarmSeverity where
  | low | medium | high | critical | warning
deriving DecidableEq, Repr

/-- `models.MachineStatus`. -/
inductive MachineStatus where
  | running | idle | maintenance | error | offline
deriving DecidableEq, Repr

/-- `models.ProcessData` (floats as `Int`, datetimes as `Nat`). -/
structure ProcessData where
  machine_id : String
  timestamp : Nat
  temperature : Int
  pressure : Int
  flow_rate : Int
  motor_speed : Int
  vibration : Int
  power_consumption : Int
  additional_params : List (String × Int) := []
deriving DecidableEq, Repr

/-- `models.AlarmData`. -/
structure AlarmData where
  machine_id : String
  timestamp : Nat
  alarm_id : String
  severity : AlarmSeverity
  message : String
  acknowledged : Bool := false
  acknowledged_by : Option String := none
  acknowledged_at : Option Nat := none
  resolved : Bool := false
  resolved_at : Option Nat := none
  category : Option String := none
  source : Option String := none
deriving DecidableEq, Repr

/-- `models.StatusData`. -/
structure StatusData where
  machine_id : String
  timestamp : Nat
  status : MachineStatus
  health_score : Int
  uptime_percentage : Int
  last_maintenance : Option Nat := none
  next_maintenance : Option Nat := none
  operating_hours : Option Int := none
  cycle_count : Option Int := none
  efficiency : Option Int := none
  availability : Option Int := none
deriving DecidableEq, Repr

/-- `models.MLAlert` (only the fields the store touches). -/
structure MLAlert where
  machine_id : String
  timestamp : Nat
  severity : AlarmSeverity
  message : String
  confidence : Int
deriving DecidableEq, Repr

/-- `models.ControlCommand`. -/
structure ControlCommand where
  machine_id : String
  command : String
  parameters : List (String × Int) := []
  timestamp : Nat
  user_id : Option String := none
  command_id : Option String := none
  status : String := "pending"
deriving DecidableEq, Repr

/-! ### Python dictionaries as association lists -/

/-- `d.get(k)` / `k in d` lookup on an insertion-ordered Python dict. -/
def dictGet (m : List (String × α)) (k : String) : Option α :=
  (m.find? (fun p => p.1 = k)).map (·.2)

/-- `d[k] = v`: overwrite in place when the key is present (keeping its
position, as CPython does), otherwise append the new key at the end. -/
def dictSet (m : List (String × α)) (k : String) (v : α) : List (String × α) :=
  match m with
  | [] => [(k, v)]
  | p :: rest =>
    if p.1 = k then (k, v) :: rest else p :: dictSet rest k v

/-- `defaultdict.__getitem__`: return the stored value, or insert the default
`d` for the key (at the end, in insertion order) and return it.  The second
component is the possibly-extended dictionary — the auto-vivification side
effect. -/
def dictGetDefault (m : List (String × α)) (k : String) (d : α) :
    α × List (String × α) :=
  match dictGet m k with
  | some v => (v, m)
  | none => (d, m ++ [(k, d)])

/-! ### Bounded deques -/

/-- `deque(maxlen=n).append x`: append on the right, dropping from the left
whenever the capacity is exceeded. -/
def boundedAppend (n : Nat) (xs : List α) (x : α) : List α :=
  let ys := xs ++ [x]
  if n < ys.length then ys.drop (ys.length - n) else ys

/-! ### The data store (`data_store.DataStore`) -/

/-- State of `DataStore`.  `heap` holds the Python `AlarmData` objects;
`alarm_data` and `active_alarms` store references into it (see the module
comment on aliasing). -/
structure DataStore where
  max_history_size : Nat
  heap : List AlarmData
  process_data : List (String × List ProcessData)
  alarm_data : List (String × List Nat)
  status_data : List (String × List StatusData)
  ml_alerts : List (String × List MLAlert)
  commands : List (String × List ControlCommand)
  latest_process : List (String × ProcessData)
  latest_status : List (String × StatusData)
  active_alarms : List (String × List Nat)
deriving DecidableEq, Repr

namespace DataStore

/-- `DataStore.__init__(max_history_size)`: every container empty. -/
def init (max_history_size : Nat := 1000) : DataStore :=
  { max_history_size := max_history_size
    heap := []
    process_data := []
    alarm_data := []
    status_data := []
    ml_alerts := []
    commands := []
    latest_process := []
    latest_status := []
    active_alarms := [] }

/-- The `alarm_id` of the object a reference points to (always defined on
references actually stored by the operations below). -/
def cellId (heap : List AlarmData) (q : Nat) : Option String :=
  (heap[q]?).map AlarmData.alarm_id

/-- In-place field update of the Python object at reference `q`
(attribute assignment). -/
def heapUpdate (heap : List AlarmData) (q : Nat) (f : AlarmData → AlarmData) :
    List AlarmData :=
  match heap[q]? with
  | some a => heap.set q (f a)
  | none => heap

/-- Python `list.remove(obj)` on a list of references: remove the first
reference whose object compares equal (pydantic field equality) to the
object of `target`; unchanged when no element matches. -/
def listRemove (heap : List AlarmData) (act : List Nat) (target : Nat) :
    List Nat :=
  match act with
  | [] => []
  | q :: rest =>
    if heap[q]? = heap[target]? then rest else q :: listRemove heap rest target

/-- `DataStore.add_process_data`: append to the machine's bounded history,
update the latest-value cache. -/
def add_process_data (s : DataStore) (data : ProcessData) : DataStore :=
  let vd := dictGetDefault s.process_data data.machine_id []
  { s with
    process_data :=
      dictSet vd.2 data.machine_id
        (boundedAppend s.max_history_size vd.1 data)
    latest_process := dictSet s.latest_process data.machine_id data }

/-- `DataStore.add_alarm_data`: allocate the event object, append a reference
to the machine's bounded alarm history, then update the active-alarm
registry — a non-resolved event replaces (removes and re-appends) any active
entry with the same `alarm_id`, a resolved event filters out every active
entry with that `alarm_id`. -/
def add_alarm_data (s : DataStore) (data : AlarmData) : DataStore :=
  let r := s.heap.length
  let heap := s.heap ++ [data]
  let vh := dictGetDefault s.alarm_data data.machine_id []
  let alarm_data :=
    dictSet vh.2 data.machine_id (boundedAppend s.max_history_size vh.1 r)
  let va := dictGetDefault s.active_alarms data.machine_id []
  let act := va.1
  let act' :=
    if data.resolved = false then
      (match act.find? (fun q => cellId heap q = some data.alarm_id) with
       | some q => listRemove heap act q
       | none => act) ++ [r]
    else
      act.filter (fun q => ¬ cellId heap q = some data.alarm_id)
  { s with
    heap := heap
    alarm_data := alarm_data
    active_alarms := dictSet va.2 data.machine_id act' }

/-- `DataStore.add_status_data`. -/
def add_status_data (s : DataStore) (data : StatusData) : DataStore :=
  let vd := dictGetDefault s.status_data data.machine_id []
  { s with
    status_data :=
      dictSet vd.2 data.machine_id
        (boundedAppend s.max_history_size vd.1 data)
    latest_status := dictSet s.latest_status data.machine_id data }

/-- `DataStore.add_ml_alert`. -/
def add_ml_alert (s : DataStore) (alert : MLAlert) : DataStore :=
  let vd := dictGetDefault s.ml_alerts alert.machine_id []
  { s with
    ml_alerts :=
      dictSet vd.2 alert.machine_id
        (boundedAppend s.max_history_size vd.1 alert) }

/-- `DataStore.add_command`. -/
def add_command (s : DataStore) (command : ControlCommand) : DataStore :=
  let vd := dictGetDefault s.commands command.machine_id []
  { s with
    commands :=
      dictSet vd.2 command.machine_id
        (boundedAppend s.max_history_size vd.1 command) }

/-- Python `history[-limit:] if limit else history` on a non-negative
`limit`: the last `limit` entries, the whole list when `limit` is `0`
(falsy) or at least the length. -/
def pySliceLast (xs : List α) (limit : Nat) : List α :=
  if limit = 0 then xs else xs.drop (xs.length - limit)

/-- `DataStore.get_latest_process_data`: shallow copy of the latest-value
dict (fresh dict, shared record references). -/
def get_latest_process_data (s : DataStore) : List (String × ProcessData) :=
  s.latest_process

/-- `DataStore.get_machine_process_data`. -/
def get_machine_process_data (s : DataStore) (machine_id : String) :
    Option ProcessData :=
  dictGet s.latest_process machine_id

/-- `DataStore.get_process_history`: `list(self.process_data[machine_id])`
auto-vivifies the key (second component is the updated store), then applies
the slice. -/
def get_process_history (s : DataStore) (machine_id : String)
    (limit : Nat := 100) : List ProcessData × DataStore :=
  let vd := dictGetDefault s.process_data machine_id []
  (pySliceLast vd.1 limit, { s with process_data := vd.2 })

/-- `DataStore.get_active_alarms`: `{k: v.copy() for k, v in ...}` — a fresh
dict of fresh lists whose elements are the shared references. -/
def get_active_alarms (s : DataStore) : List (String × List Nat) :=
  s.active_alarms

/-- `DataStore.get_machine_alarms`: `self.active_alarms[machine_id].copy()` —
auto-vivifies the key and returns a fresh list of the shared references. -/
def get_machine_alarms (s : DataStore) (machine_id : String) :
    List Nat × DataStore :=
  let vd := dictGetDefault s.active_alarms machine_id []
  (vd.1, { s with active_alarms := vd.2 })

/-- `DataStore.get_alarm_history` (references into the heap). -/
def get_alarm_history (s : DataStore) (machine_id : String)
    (limit : Nat := 100) : List Nat × DataStore :=
  let vd := dictGetDefault s.alarm_data machine_id []
  (pySliceLast vd.1 limit, { s with alarm_data := vd.2 })

/-- The in-place field assignments `acknowledge_alarm` performs on the found
alarm object. -/
def ackUpdate (user_id : String) (now : Nat) (a : AlarmData) : AlarmData :=
  { a with
    acknowledged := true
    acknowledged_by := some user_id
    acknowledged_at := some now }

/-- The in-place field assignments `resolve_alarm` performs on the found
alarm object. -/
def resolveUpdate (now : Nat) (a : AlarmData) : AlarmData :=
  { a with resolved := true, resolved_at := some now }

/-- `DataStore.acknowledge_alarm`: find the first active alarm of the machine
with the given id; if found, overwrite its acknowledgment fields in place and
return `true`; otherwise return `false`.  `now` stands for
`datetime.utcnow()`. -/
def acknowledge_alarm (s : DataStore) (machine_id alarm_id user_id : String)
    (now : Nat) : Bool × DataStore :=
  let va := dictGetDefault s.active_alarms machine_id []
  match va.1.find? (fun q => cellId s.heap q = some alarm_id) with
  | none => (false, { s with active_alarms := va.2 })
  | some q =>
    (true,
      { s with
        heap := heapUpdate s.heap q (ackUpdate user_id now)
        active_alarms := va.2 })

/-- `DataStore.resolve_alarm`: find the first active alarm of the machine
with the given id; if found, mark it resolved in place, remove it from the
active list (`list.remove`, i.e. first object-equal element) and return
`true`; otherwise return `false`. -/
def resolve_alarm (s : DataStore) (machine_id alarm_id user_id : String)
    (now : Nat) : Bool × DataStore :=
  let va := dictGetDefault s.active_alarms machine_id []
  match va.1.find? (fun q => cellId s.heap q = some alarm_id) with
  | none => (false, { s with active_alarms := va.2 })
  | some q =>
    let heap := heapUpdate s.heap q (resolveUpdate now)
    (true,
      { s with
        heap := heap
        active_alarms := dictSet va.2 machine_id (listRemove heap va.1 q) })

/-- `DataStore.cleanup_old_data`: rebuild every machine's ML-alert deque,
keeping only alerts strictly newer than the cutoff. -/
def cleanup_old_data (s : DataStore) (cutoff_time : Nat) : DataStore :=
  { s with
    ml_alerts :=
      s.ml_alerts.map (fun p =>
        (p.1, p.2.filter (fun alert => cutoff_time < alert.timestamp))) }

/-! ### Derived observations (dereferencing) -/

/-- The machine's active-alarm references (empty when the key is absent). -/
def activeRefs (s : DataStore) (machine_id : String) : List Nat :=
  (dictGet s.active_alarms machine_id).getD []

/-- The machine's active alarms as record values (Python: the objects the
registry's references point to). -/
def activeAlarmsFor (s : DataStore) (machine_id : String) : List AlarmData :=
  (activeRefs s machine_id).filterMap (fun q => s.heap[q]?)

/-- The machine's alarm-history audit log as record values. -/
def alarmHistoryFor (s : DataStore) (machine_id : String) : List AlarmData :=
  ((dictGet s.alarm_data machine_id).getD []).filterMap (fun q => s.heap[q]?)

/-- The machine's process history (empty when the key is absent). -/
def processHistoryFor (s : DataStore) (machine_id : String) :
    List ProcessData :=
  (dictGet s.process_data machine_id).getD []

end DataStore

/-! ### The broadcast fan-out (`websocket_manager.WebSocketManager`)

Clients are identified by `Nat` ids.  A client's connection health is an
environment parameter `failing : Nat → Bool`: `websocket.send_text` raises
exactly when the client's connection is broken.  The `try/except` around the
send in `broadcast` becomes a `match` on the `Except` result of `sendText`,
so `broadcast` itself is a total function — no delivery failure escapes to
its caller. -/

/-- Per-connection metadata kept in `connection_info`. -/
structure ConnInfo where
  connected_at : Nat
  last_ping : Nat
deriving DecidableEq, Repr

/-- State of `WebSocketManager`. -/
structure WSManager where
  active_connections : List Nat
  connection_info : List (Nat × ConnInfo)
deriving DecidableEq, Repr

namespace WSManager

/-- `WebSocketManager.__init__`. -/
def init : WSManager :=
  { active_connections := [], connection_info := [] }

/-- `websocket.send_text`: fails exactly when the client's connection is
broken. -/
def sendText (failing : Nat → Bool) (c : Nat) : Except Unit Unit :=
  if failing c then Except.error () else Except.ok ()

/-- Assoc-list lookup keyed by client id. -/
def infoGet (m : List (Nat × ConnInfo)) (c : Nat) : Option ConnInfo :=
  (m.find? (fun p => p.1 = c)).map (·.2)

/-- `self.connection_info[connection]["last_ping"] = now`, guarded by
`if connection in self.connection_info`. -/
def infoPing (m : List (Nat × ConnInfo)) (c : Nat) (now : Nat) :
    List (Nat × ConnInfo) :=
  m.map (fun p => if p.1 = c then (p.1, { p.2 with last_ping := now }) else p)

/-- `WebSocketManager.disconnect`: remove the client from the connection
list (first occurrence) and delete its metadata; both steps are guarded, so
the operation is idempotent. -/
def disconnect (mgr : WSManager) (c : Nat) : WSManager :=
  { active_connections := mgr.active_connections.erase c
    connection_info := mgr.connection_info.filter (fun p => ¬ p.1 = c) }

/-- `WebSocketManager.connect` (after the transport-level `accept`): append
the client and record its metadata.  The welcome message delivery is pure
I/O and is not modelled. -/
def connect (mgr : WSManager) (c : Nat) (now : Nat) : WSManager :=
  { active_connections := mgr.active_connections ++ [c]
    connection_info := mgr.connection_info ++ [(c, ⟨now, now⟩)] }

/-- One iteration of the delivery loop of `broadcast`: attempt the send; on
success record the client as reached and refresh its `last_ping`; on failure
append it to the `disconnected_connections` accumulator. -/
def broadcastStep (failing : Nat → Bool) (now : Nat)
    (acc : List Nat × List Nat × List (Nat × ConnInfo)) (c : Nat) :
    List Nat × List Nat × List (Nat × ConnInfo) :=
  match sendText failing c with
  | Except.ok _ => (acc.1 ++ [c], acc.2.1, infoPing acc.2.2 c now)
  | Except.error _ => (acc.1, acc.2.1 ++ [c], acc.2.2)

/-- `WebSocketManager.broadcast`: early return on an empty registry;
otherwise iterate over a point-in-time copy of `active_connections`,
collecting failed deliveries, then disconnect every failed client.  Returns
the updated manager and the list of clients the event was delivered to. -/
def broadcast (mgr : WSManager) (failing : Nat → Bool) (now : Nat) :
    WSManager × List Nat :=
  if mgr.active_connections = [] then (mgr, [])
  else
    let copy := mgr.active_connections
    let r := copy.foldl (broadcastStep failing now) ([], [], mgr.connection_info)
    let mgr' :=
      r.2.1.foldl (fun m c => disconnect m c)
        { mgr with connection_info := r.2.2 }
    (mgr', r.1)

end WSManager

/-! ### Specification-side definitions used by the claims -/

namespace DataStore

/-- A public store operation (the mutators plus the accessors that touch a
`defaultdict`), used to quantify over arbitrary call sequences. -/
inductive StoreOp where
  | proc (d : ProcessData)
  | alarm (d : AlarmData)
  | status (d : StatusData)
  | ml (a : MLAlert)
  | cmd (c : ControlCommand)
  | ack (machine_id alarm_id user_id : String) (now : Nat)
  | res (machine_id alarm_id user_id : String) (now : Nat)
  | getAlarms (machine_id : String)
  | getProcHist (machine_id : String) (limit : Nat)
  | getAlarmHist (machine_id : String) (limit : Nat)
  | cleanup (cutoff : Nat)
deriving Repr

/-- Run one operation against the store (return values discarded). -/
def applyOp (s : DataStore) : StoreOp → DataStore
  | StoreOp.proc d => s.add_process_data d
  | StoreOp.alarm d => s.add_alarm_data d
  | StoreOp.status d => s.add_status_data d
  | StoreOp.ml a => s.add_ml_alert a
  | StoreOp.cmd c => s.add_command c
  | StoreOp.ack m a u t => (s.acknowledge_alarm m a u t).2
  | StoreOp.res m a u t => (s.resolve_alarm m a u t).2
  | StoreOp.getAlarms m => (s.get_machine_alarms m).2
  | StoreOp.getProcHist m l => (s.get_process_history m l).2
  | StoreOp.getAlarmHist m l => (s.get_alarm_history m l).2
  | StoreOp.cleanup c => s.cleanup_old_data c

/-- Run a sequence of operations. -/
def applyOps (s : DataStore) (ops : List StoreOp) : DataStore :=
  ops.foldl applyOp s

/-- Every per-machine, per-kind history list is within the configured
capacity. -/
def dictAllLen (n : Nat) (m : List (String × List α)) : Prop :=
  ∀ p ∈ m, p.2.length ≤ n

/-- All five history containers of the store respect `max_history_size`. -/
def HistBounded (s : DataStore) : Prop :=
  dictAllLen s.max_history_size s.process_data ∧
  dictAllLen s.max_history_size s.alarm_data ∧
  dictAllLen s.max_history_size s.status_data ∧
  dictAllLen s.max_history_size s.ml_alerts ∧
  dictAllLen s.max_history_size s.commands

/-- Abstract one-alarm lifecycle: the state after an event for a fixed
`(machine_id, alarm_id)` is the event itself when it is open, nothing when
it is resolved. -/
def lastOpen (o : Option AlarmData) (e : AlarmData) : Option AlarmData :=
  if e.resolved = true then none else some e

/-- Refinement invariant for the single-alarm lifecycle: the machine's
active list is empty, or a single valid reference to the abstract alarm. -/
def AlarmInv (s : DataStore) (M A : String) : Option AlarmData → Prop
  | none => activeRefs s M = []
  | some a =>
    a.resolved = false ∧ a.alarm_id = A ∧
    ∃ q, activeRefs s M = [q] ∧ s.heap[q]? = some a

/-- Well-formedness of a machine's active-alarm registry entry, maintained
by the store operations: references are in bounds and duplicate-free, and
every active alarm object is unresolved. -/
def ActWf (s : DataStore) (machine_id : String) : Prop :=
  (∀ q ∈ activeRefs s machine_id, q < s.heap.length) ∧
  (activeRefs s machine_id).Nodup ∧
  (∀ a ∈ activeAlarmsFor s machine_id, a.resolved = false)

end DataStore

/-- Apply `f` to the first element satisfying `p`, keeping the rest. -/
def modFirst (p : α → Bool) (f : α → α) : List α → List α
  | [] => []
  | x :: xs => if p x then f x :: xs else x :: modFirst p f xs

/-! ## Helper lemmas: dictionaries -/

theorem dictGet_nil (k : String) : dictGet ([] : List (String × α)) k = none := rfl

theorem dictGet_cons (p : String × α) (m : List (String × α)) (k : String) :
    dictGet (p :: m) k = if p.1 = k then some p.2 else dictGet m k := by
  by_cases h : p.1 = k <;> simp [dictGet, List.find?, h]

theorem dictGet_dictSet_self (m : List (String × α)) (k : String) (v : α) :
    dictGet (dictSet m k v) k = some v := by
  induction m with
  | nil => simp [dictSet, dictGet_cons]
  | cons p rest ih =>
    by_cases h : p.1 = k
    · simp [dictSet, h, dictGet_cons]
    · simp [dictSet, h, dictGet_cons, ih]

theorem dictSet_cons_eq (q : String × α) (rest : List (String × α))
    (k : String) (v : α) (hq : q.1 = k) :
    dictSet (q :: rest) k v = (k, v) :: rest := by
  simp [dictSet, hq]

theorem dictSet_cons_ne (q : String × α) (rest : List (String × α))
    (k : String) (v : α) (hq : ¬ q.1 = k) :
    dictSet (q :: rest) k v = q :: dictSet rest k v := by
  simp [dictSet, hq]

theorem dictGet_dictSet_ne (m : List (String × α)) (k k' : String) (v : α)
    (h : k' ≠ k) : dictGet (dictSet m k v) k' = dictGet m k' := by
  have hk : ¬ k = k' := fun hh => h hh.symm
  induction m with
  | nil => simp [dictSet, dictGet_cons, dictGet_nil, hk]
  | cons p rest ih =>
    by_cases hp : p.1 = k
    · rw [dictSet_cons_eq p rest k v hp, dictGet_cons, dictGet_cons, if_neg hk,
        if_neg (hp ▸ hk)]
    · rw [dictSet_cons_ne p rest k v hp, dictGet_cons, dictGet_cons, ih]

theorem dictGet_append_self (m : List (String × α)) (k : String) (v : α)
    (h : dictGet m k = none) : dictGet (m ++ [(k, v)]) k = some v := by
  induction m with
  | nil => simp [dictGet_cons]
  | cons p rest ih =>
    rw [dictGet_cons] at h
    by_cases hp : p.1 = k
    · simp [hp] at h
    · rw [List.cons_append, dictGet_cons, if_neg hp]
      exact ih (by simpa [hp] using h)

theorem dictGet_append_ne (m : List (String × α)) (k k' : String) (v : α)
    (h : k ≠ k') : dictGet (m ++ [(k, v)]) k' = dictGet m k' := by
  induction m with
  | nil => simp [dictGet_cons, dictGet_nil, h]
  | cons p rest ih => rw [List.cons_append, dictGet_cons, dictGet_cons, ih]

theorem dictGetDefault_fst (m : List (String × α)) (k : String) (d : α) :
    (dictGetDefault m k d).1 = (dictGet m k).getD d := by
  unfold dictGetDefault
  cases dictGet m k <;> simp

theorem dictGet_dictGetDefault_self (m : List (String × α)) (k : String) (d : α) :
    dictGet (dictGetDefault m k d).2 k = some (dictGetDefault m k d).1 := by
  unfold dictGetDefault
  cases h : dictGet m k with
  | some v => simpa using h
  | none => simpa using dictGet_append_self m k d h

theorem dictGet_dictGetDefault_ne (m : List (String × α)) (k k' : String)
    (d : α) (h : k ≠ k') :
    dictGet (dictGetDefault m k d).2 k' = dictGet m k' := by
  unfold dictGetDefault
  cases hg : dictGet m k with
  | some v => rfl
  | none => simpa using dictGet_append_ne m k k' d h

theorem dictGet_mem (m : List (String × α)) (k : String) (v : α)
    (h : dictGet m k = some v) : (k, v) ∈ m := by
  induction m with
  | nil => simp [dictGet_nil] at h
  | cons p rest ih =>
    rw [dictGet_cons] at h
    by_cases hp : p.1 = k
    · rw [if_pos hp] at h
      obtain ⟨p1, p2⟩ := p
      obtain rfl : p1 = k := hp
      obtain rfl : p2 = v := by simpa using h
      exact List.mem_cons_self _ _
    · rw [if_neg hp] at h
      exact List.mem_cons_of_mem _ (ih h)

theorem mem_dictSet (m : List (String × α)) (k : String) (v : α)
    (p : String × α) (h : p ∈ dictSet m k v) : p = (k, v) ∨ p ∈ m := by
  induction m with
  | nil => simpa [dictSet] using h
  | cons q rest ih =>
    by_cases hq : q.1 = k
    · rw [dictSet_cons_eq q rest k v hq, List.mem_cons] at h
      rcases h with h | h
      · exact Or.inl h
      · exact Or.inr (List.mem_cons_of_mem _ h)
    · rw [dictSet_cons_ne q rest k v hq, List.mem_cons] at h
      rcases h with h | h
      · exact Or.inr (h ▸ List.mem_cons_self q rest)
      · rcases ih h with h' | h'
        · exact Or.inl h'
        · exact Or.inr (List.mem_cons_of_mem _ h')

theorem mem_dictGetDefault_snd (m : List (String × α)) (k : String) (d : α)
    (p : String × α) (h : p ∈ (dictGetDefault m k d).2) :
    p = (k, d) ∨ p ∈ m := by
  unfold dictGetDefault at h
  split at h
  · exact Or.inr h
  · simp only [List.mem_append, List.mem_singleton] at h
    tauto

/-! ## Helper lemmas: bounded append -/

theorem boundedAppend_length_le (n : Nat) (xs : List α) (x : α)
    (h : xs.length ≤ n) : (boundedAppend n xs x).length ≤ n := by
  unfold boundedAppend
  by_cases hc : n < (xs ++ [x]).length
  · simp only [if_pos hc, List.length_drop]
    omega
  · simp only [if_neg hc]
    omega

theorem boundedAppend_full (n : Nat) (xs : List α) (x : α) (hn : 0 < n)
    (h : xs.length = n) : boundedAppend n xs x = xs.tail ++ [x] := by
  unfold boundedAppend
  have hc : n < (xs ++ [x]).length := by simp [h]
  rw [if_pos hc]
  have h1 : (xs ++ [x]).length - n = 1 := by simp [h]
  rw [h1, List.drop_append_of_le_length (by omega), List.drop_one]

/-! ## Helper lemmas: the alarm lifecycle (claim C1) -/

namespace DataStore

theorem activeRefs_def (s : DataStore) (m : String) :
    activeRefs s m = (dictGet s.active_alarms m).getD [] := rfl

theorem heap_add_alarm (s : DataStore) (e : AlarmData) :
    (s.add_alarm_data e).heap = s.heap ++ [e] := rfl

theorem active_alarms_add_alarm (s : DataStore) (e : AlarmData) :
    (s.add_alarm_data e).active_alarms =
      dictSet (dictGetDefault s.active_alarms e.machine_id []).2 e.machine_id
        (if e.resolved = false then
          (match (activeRefs s e.machine_id).find?
              (fun q => cellId (s.heap ++ [e]) q = some e.alarm_id) with
           | some q =>
             listRemove (s.heap ++ [e]) (activeRefs s e.machine_id) q
           | none => activeRefs s e.machine_id) ++ [s.heap.length]
        else
          (activeRefs s e.machine_id).filter
            (fun q => ¬ cellId (s.heap ++ [e]) q = some e.alarm_id)) := by
  unfold add_alarm_data
  rw [activeRefs_def, ← dictGetDefault_fst]

theorem activeRefs_add_alarm (s : DataStore) (e : AlarmData) :
    activeRefs (s.add_alarm_data e) e.machine_id =
      (if e.resolved = false then
        (match (activeRefs s e.machine_id).find?
            (fun q => cellId (s.heap ++ [e]) q = some e.alarm_id) with
         | some q => listRemove (s.heap ++ [e]) (activeRefs s e.machine_id) q
         | none => activeRefs s e.machine_id) ++ [s.heap.length]
      else
        (activeRefs s e.machine_id).filter
          (fun q => ¬ cellId (s.heap ++ [e]) q = some e.alarm_id)) := by
  rw [activeRefs_def, active_alarms_add_alarm, dictGet_dictSet_self]
  rfl

theorem cellId_append_left (heap : List AlarmData) (ext : List AlarmData)
    (q : Nat) (h : q < heap.length) :
    cellId (heap ++ ext) q = cellId heap q := by
  unfold cellId
  rw [List.getElem?_append]
  simp [h]

theorem cellId_concat_self (heap : List AlarmData) (e : AlarmData) :
    cellId (heap ++ [e]) heap.length = some e.alarm_id := by
  unfold cellId
  rw [List.getElem?_concat_length]
  rfl

/-- One `add_alarm_data` step preserves the single-alarm refinement
invariant and tracks the abstract `lastOpen` transition. -/
theorem add_alarm_step (s : DataStore) (M A : String) (o : Option AlarmData)
    (e : AlarmData) (hM : e.machine_id = M) (hA : e.alarm_id = A)
    (h : AlarmInv s M A o) :
    AlarmInv (s.add_alarm_data e) M A (lastOpen o e) := by
  have hact := activeRefs_add_alarm s e
  rw [hM] at hact
  cases o with
  | none =>
    have hrefs : activeRefs s M = [] := h
    cases hres : e.resolved with
    | true =>
      unfold AlarmInv lastOpen
      rw [hres, if_pos rfl, hact, if_neg (by simp [hres]), hrefs]
      rfl
    | false =>
      unfold AlarmInv lastOpen
      rw [hres, if_neg (by simp)]
      refine ⟨hres, hA, s.heap.length, ?_, ?_⟩
      · rw [hact, if_pos hres, hrefs]
        rfl
      · rw [heap_add_alarm]
        exact List.getElem?_concat_length s.heap e
  | some a =>
    obtain ⟨hares, haid, q, hrefs, hcell⟩ := h
    have hq : q < s.heap.length := (List.getElem?_eq_some.mp hcell).1
    have hcid : cellId (s.heap ++ [e]) q = some e.alarm_id := by
      rw [cellId_append_left s.heap [e] q hq]
      unfold cellId
      rw [hcell]
      simp [haid, hA]
    cases hres : e.resolved with
    | true =>
      unfold AlarmInv lastOpen
      rw [hres, if_pos rfl, hact, if_neg (by simp [hres]), hrefs]
      simp [hcid]
    | false =>
      unfold AlarmInv lastOpen
      rw [hres, if_neg (by simp)]
      refine ⟨hres, hA, s.heap.length, ?_, ?_⟩
      · rw [hact, if_pos hres, hrefs]
        have hfind : [q].find? (fun q' => cellId (s.heap ++ [e]) q' = some e.alarm_id) = some q := by
          simp [List.find?, hcid]
        rw [hfind]
        unfold listRemove
        rw [if_pos rfl]
        rfl
      · rw [heap_add_alarm]
        exact List.getElem?_concat_length s.heap e

/-- Folding `add_alarm_data` over a single-identity event sequence refines
the abstract `lastOpen` fold. -/
theorem add_alarm_foldl (es : List AlarmData) (M A : String)
    (s : DataStore) (o : Option AlarmData)
    (hes : ∀ e ∈ es, e.machine_id = M ∧ e.alarm_id = A)
    (h : AlarmInv s M A o) :
    AlarmInv (es.foldl add_alarm_data s) M A (es.foldl lastOpen o) := by
  induction es generalizing s o with
  | nil => exact h
  | cons e rest ih =>
    have he := hes e (List.mem_cons_self e rest)
    exact ih _ _ (fun e' h' => hes e' (List.mem_cons_of_mem e h'))
      (add_alarm_step s M A o e he.1 he.2 h)

/-- The abstract fold only depends on the last event. -/
theorem foldl_lastOpen (es : List AlarmData) (o : Option AlarmData) :
    es.foldl lastOpen o =
      (match es.getLast? with
       | none => o
       | some e => if e.resolved = true then none else some e) := by
  induction es generalizing o with
  | nil => rfl
  | cons e rest ih =>
    cases rest with
    | nil => simp [List.foldl, lastOpen]
    | cons y ys =>
      rw [List.foldl_cons, ih, List.getLast?_cons_cons]
      cases hl : (y :: ys).getLast? with
      | none => exact absurd (List.getLast?_eq_none_iff.mp hl) (by simp)
      | some z => rfl

theorem activeRefs_init (n : Nat) (m : String) : activeRefs (init n) m = [] := rfl

/-- The refinement invariant determines the dereferenced active list. -/
theorem activeAlarmsFor_of_inv (s : DataStore) (M A : String)
    (o : Option AlarmData) (h : AlarmInv s M A o) :
    activeAlarmsFor s M = o.toList := by
  cases o with
  | none =>
    unfold activeAlarmsFor
    rw [h]
    rfl
  | some a =>
    obtain ⟨-, -, q, hrefs, hcell⟩ := h
    unfold activeAlarmsFor
    rw [hrefs]
    simp [List.filterMap, hcell]

/-- `latest_process` after an `add_process_data`. -/
theorem latest_process_add (s : DataStore) (d : ProcessData) :
    (s.add_process_data d).latest_process =
      dictSet s.latest_process d.machine_id d := rfl

/-- The latest-value cache after folding a batch of samples: the last sample
of the batch for that machine, or the prior cache entry when the batch has
none. -/
theorem dictGet_latest_foldl (ds : List ProcessData) (s : DataStore)
    (M : String) :
    dictGet ((ds.foldl add_process_data s).latest_process) M =
      (match (ds.filter (fun d => d.machine_id = M)).getLast? with
       | some d => some d
       | none => dictGet s.latest_process M) := by
  induction ds using List.reverseRecOn generalizing s with
  | nil => rfl
  | append_singleton rest d ih =>
    rw [List.foldl_append, List.foldl_cons, List.foldl_nil, List.filter_append]
    by_cases hM : d.machine_id = M
    · rw [latest_process_add, hM, dictGet_dictSet_self]
      simp [hM, List.getLast?_concat]
    · rw [latest_process_add,
        dictGet_dictSet_ne _ _ _ _ (fun hh => hM hh.symm), ih]
      simp [hM]

end DataStore

/-! ## Claim C1 -/

/-- C1: for any sequence of alarm events sharing one `(machine_id,
alarm_id)` identity and ingested through `add_alarm_data`, the machine's
active-alarm registry holds at most one entry; it holds exactly the last
event received when that event was not resolved, and is empty after a
resolved event (or no events). -/
theorem alarm_lifecycle_single_identity (es : List AlarmData) (M A : String)
    (N : Nat) (hes : ∀ e ∈ es, e.machine_id = M ∧ e.alarm_id = A) :
    (DataStore.activeAlarmsFor
        (es.foldl DataStore.add_alarm_data (DataStore.init N)) M).length ≤ 1 ∧
    DataStore.activeAlarmsFor
        (es.foldl DataStore.add_alarm_data (DataStore.init N)) M =
      (match es.getLast? with
       | none => []
       | some e => if e.resolved = true then [] else [e]) := by
  have hinv :=
    DataStore.add_alarm_foldl es M A (DataStore.init N) none hes rfl
  rw [DataStore.foldl_lastOpen] at hinv
  have hval := DataStore.activeAlarmsFor_of_inv _ M A _ hinv
  rw [hval]
  cases hl : es.getLast? with
  | none => simp
  | some e =>
    by_cases hres : e.resolved = true
    · simp [hres]
    · simp [hres]

/-- Witness for C1 at a concrete three-event sequence: open, update (new
severity and message), then resolve — the active set ends empty. -/
theorem alarm_lifecycle_single_identity_witness :
    (∀ e ∈ ([{ machine_id := "M1", timestamp := 1, alarm_id := "A1",
               severity := AlarmSeverity.high, message := "hot" },
             { machine_id := "M1", timestamp := 2, alarm_id := "A1",
               severity := AlarmSeverity.critical, message := "hotter" },
             { machine_id := "M1", timestamp := 3, alarm_id := "A1",
               severity := AlarmSeverity.critical, message := "ok",
               resolved := true }] : List AlarmData),
      e.machine_id = "M1" ∧ e.alarm_id = "A1") ∧
    (DataStore.activeAlarmsFor
        (([{ machine_id := "M1", timestamp := 1, alarm_id := "A1",
             severity := AlarmSeverity.high, message := "hot" },
           { machine_id := "M1", timestamp := 2, alarm_id := "A1",
             severity := AlarmSeverity.critical, message := "hotter" },
           { machine_id := "M1", timestamp := 3, alarm_id := "A1",
             severity := AlarmSeverity.critical, message := "ok",
             resolved := true }] : List AlarmData).foldl
          DataStore.add_alarm_data (DataStore.init 5)) "M1").length ≤ 1 :=
  ⟨by decide, (alarm_lifecycle_single_identity _ "M1" "A1" 5 (by decide)).1⟩

/-! ## Claim C5 -/

/-- C5: after any sequence of `add_process_data` calls on a fresh store, the
latest-value cache of a machine is exactly the last sample ingested for it
(regardless of history capacity); and in the concrete capacity-1 scenario,
ingesting a temperature-72 sample then a temperature-75 sample leaves history
equal to the 75 sample alone and the cache equal to the 75 sample. -/
theorem latest_cache_reflects_last_sample :
    (∀ (ds : List ProcessData) (M : String) (N : Nat),
      dictGet ((ds.foldl DataStore.add_process_data
          (DataStore.init N)).latest_process) M =
        (match (ds.filter (fun d => d.machine_id = M)).getLast? with
         | some d => some d
         | none => none)) ∧
    (DataStore.processHistoryFor
        (((DataStore.init 1).add_process_data
            { machine_id := "M1", timestamp := 1, temperature := 72,
              pressure := 0, flow_rate := 0, motor_speed := 0,
              vibration := 0, power_consumption := 0 }).add_process_data
          { machine_id := "M1", timestamp := 2, temperature := 75,
            pressure := 0, flow_rate := 0, motor_speed := 0,
            vibration := 0, power_consumption := 0 }) "M1" =
      [{ machine_id := "M1", timestamp := 2, temperature := 75,
         pressure := 0, flow_rate := 0, motor_speed := 0,
         vibration := 0, power_consumption := 0 }] ∧
     dictGet
        (((DataStore.init 1).add_process_data
            { machine_id := "M1", timestamp := 1, temperature := 72,
              pressure := 0, flow_rate := 0, motor_speed := 0,
              vibration := 0, power_consumption := 0 }).add_process_data
          { machine_id := "M1", timestamp := 2, temperature := 75,
            pressure := 0, flow_rate := 0, motor_speed := 0,
            vibration := 0, power_consumption := 0 }).latest_process "M1" =
      some { machine_id := "M1", timestamp := 2, temperature := 75,
             pressure := 0, flow_rate := 0, motor_speed := 0,
             vibration := 0, power_consumption := 0 }) := by
  refine ⟨fun ds M N => ?_, by decide, by decide⟩
  rw [DataStore.dictGet_latest_foldl]
  rfl

/-! ## Claim C10 -/

namespace DataStore

theorem pySliceLast_zero (xs : List α) : pySliceLast xs 0 = xs := rfl

theorem pySliceLast_length (xs : List α) (limit : Nat) (h : 0 < limit) :
    (pySliceLast xs limit).length = min limit xs.length := by
  unfold pySliceLast
  rw [if_neg (by omega), List.length_drop]
  omega

theorem pySliceLast_suffix (xs : List α) (limit : Nat) :
    (pySliceLast xs limit).IsSuffix xs := by
  unfold pySliceLast
  by_cases h : limit = 0
  · simp [h]
  · rw [if_neg h]
    exact List.drop_suffix _ _

end DataStore

/-- C10: for a positive `limit`, `get_process_history` and
`get_alarm_history` return the last `min limit length` entries of the
machine's history in insertion order (a suffix); for `limit = 0` the falsy
check makes both return the entire history. -/
theorem history_limit_semantics (s : DataStore) (m : String) (limit : Nat) :
    (0 < limit →
      ((s.get_process_history m limit).1.length =
          min limit (DataStore.processHistoryFor s m).length ∧
        (s.get_process_history m limit).1.IsSuffix
          (DataStore.processHistoryFor s m)) ∧
      ((s.get_alarm_history m limit).1.length =
          min limit ((dictGet s.alarm_data m).getD []).length ∧
        (s.get_alarm_history m limit).1.IsSuffix
          ((dictGet s.alarm_data m).getD []))) ∧
    (limit = 0 →
      (s.get_process_history m limit).1 = DataStore.processHistoryFor s m ∧
      (s.get_alarm_history m limit).1 = (dictGet s.alarm_data m).getD []) := by
  have hp : (s.get_process_history m limit).1 =
      DataStore.pySliceLast (DataStore.processHistoryFor s m) limit := by
    simp only [DataStore.get_process_history, dictGetDefault_fst]
    rfl
  have ha : (s.get_alarm_history m limit).1 =
      DataStore.pySliceLast ((dictGet s.alarm_data m).getD []) limit := by
    simp only [DataStore.get_alarm_history, dictGetDefault_fst]
  constructor
  · intro hl
    exact ⟨⟨hp ▸ DataStore.pySliceLast_length _ _ hl,
        hp ▸ DataStore.pySliceLast_suffix _ _⟩,
      ⟨ha ▸ DataStore.pySliceLast_length _ _ hl,
        ha ▸ DataStore.pySliceLast_suffix _ _⟩⟩
  · intro hz
    subst hz
    exact ⟨hp ▸ DataStore.pySliceLast_zero _,
      ha ▸ DataStore.pySliceLast_zero _⟩

/-- Witness for C10 at `limit = 1` on a fresh store, and at `limit = 0`. -/
theorem history_limit_semantics_witness :
    ((((DataStore.init 5).get_process_history "M1" 1).1.length =
        min 1 (DataStore.processHistoryFor (DataStore.init 5) "M1").length ∧
      (((DataStore.init 5)).get_process_history "M1" 1).1.IsSuffix
        (DataStore.processHistoryFor (DataStore.init 5) "M1")) ∧
     (((DataStore.init 5).get_alarm_history "M1" 1).1.length =
        min 1 ((dictGet (DataStore.init 5).alarm_data "M1").getD []).length ∧
      ((DataStore.init 5).get_alarm_history "M1" 1).1.IsSuffix
        ((dictGet (DataStore.init 5).alarm_data "M1").getD []))) ∧
    (((DataStore.init 5).get_process_history "M1" 0).1 =
        DataStore.processHistoryFor (DataStore.init 5) "M1" ∧
      ((DataStore.init 5).get_alarm_history "M1" 0).1 =
        (dictGet (DataStore.init 5).alarm_data "M1").getD []) :=
  ⟨(history_limit_semantics (DataStore.init 5) "M1" 1).1 (by decide),
   (history_limit_semantics (DataStore.init 5) "M1" 0).2 rfl⟩

/-! ## Claim C9 -/

/-- C9: calling `acknowledge_alarm`, `resolve_alarm` or `get_machine_alarms`
with a machine id that has no active-alarm entry auto-vivifies the key: the
machine afterwards appears in `get_active_alarms` with an empty alarm
list. -/
theorem defaultdict_vivification (s : DataStore) (m A u : String) (t : Nat)
    (h : dictGet s.active_alarms m = none) :
    dictGet (DataStore.get_active_alarms (s.acknowledge_alarm m A u t).2) m =
        some [] ∧
    dictGet (DataStore.get_active_alarms (s.resolve_alarm m A u t).2) m =
        some [] ∧
    dictGet (DataStore.get_active_alarms (s.get_machine_alarms m).2) m =
        some [] := by
  have hva : dictGetDefault s.active_alarms m ([] : List Nat) =
      ([], s.active_alarms ++ [(m, [])]) := by
    unfold dictGetDefault
    rw [h]
  have hget : dictGet (s.active_alarms ++ [(m, ([] : List Nat))]) m = some [] :=
    dictGet_append_self _ _ _ h
  refine ⟨?_, ?_, ?_⟩
  · simp only [DataStore.acknowledge_alarm, hva, List.find?,
      DataStore.get_active_alarms]
    exact hget
  · simp only [DataStore.resolve_alarm, hva, List.find?,
      DataStore.get_active_alarms]
    exact hget
  · simp only [DataStore.get_machine_alarms, hva,
      DataStore.get_active_alarms]
    exact hget

/-- Witness for C9: a fresh store has no entry for machine `"M7"`; each of
the three operations then vivifies it. -/
theorem defaultdict_vivification_witness :
    dictGet (DataStore.get_active_alarms
        ((DataStore.init 5).acknowledge_alarm "M7" "A1" "op1" 3).2) "M7" =
      some [] ∧
    dictGet (DataStore.get_active_alarms
        ((DataStore.init 5).resolve_alarm "M7" "A1" "op1" 3).2) "M7" =
      some [] ∧
    dictGet (DataStore.get_active_alarms
        ((DataStore.init 5).get_machine_alarms "M7").2) "M7" =
      some [] :=
  defaultdict_vivification (DataStore.init 5) "M7" "A1" "op1" 3 rfl

/-! ## Claim C4 -/

namespace DataStore

theorem dictAllLen_dictSet {α : Type} (n : Nat) (m : List (String × List α))
    (k : String) (v : List α) (hm : dictAllLen n m) (hv : v.length ≤ n) :
    dictAllLen n (dictSet m k v) := by
  intro p hp
  rcases mem_dictSet m k v p hp with h | h
  · rw [h]
    exact hv
  · exact hm p h

theorem dictAllLen_dgd_snd {α : Type} (n : Nat) (m : List (String × List α))
    (k : String) (hm : dictAllLen n m) :
    dictAllLen n (dictGetDefault m k []).2 := by
  intro p hp
  rcases mem_dictGetDefault_snd m k [] p hp with h | h
  · rw [h]
    simp
  · exact hm p h

theorem dictAllLen_dgd_fst {α : Type} (n : Nat) (m : List (String × List α))
    (k : String) (hm : dictAllLen n m) :
    (dictGetDefault m k ([] : List α)).1.length ≤ n := by
  rw [dictGetDefault_fst]
  cases hg : dictGet m k with
  | none => simp
  | some v => simpa using hm (k, v) (dictGet_mem m k v hg)

/-- The common history-update shape of the five `add_*` operations keeps
every history within capacity. -/
theorem dictAllLen_addHist {α : Type} (n : Nat) (m : List (String × List α))
    (k : String) (x : α) (hm : dictAllLen n m) :
    dictAllLen n (dictSet (dictGetDefault m k []).2 k
      (boundedAppend n (dictGetDefault m k []).1 x)) :=
  dictAllLen_dictSet n _ k _ (dictAllLen_dgd_snd n m k hm)
    (boundedAppend_length_le n _ x (dictAllLen_dgd_fst n m k hm))

theorem dictAllLen_filter {α : Type} (n : Nat) (m : List (String × List α))
    (f : α → Bool) (hm : dictAllLen n m) :
    dictAllLen n (m.map (fun p => (p.1, p.2.filter f))) := by
  intro p hp
  rcases List.mem_map.mp hp with ⟨q, hq, rfl⟩
  exact le_trans (List.length_filter_le f q.2) (hm q hq)

theorem histBounded_applyOp (s : DataStore) (op : StoreOp)
    (h : HistBounded s) : HistBounded (applyOp s op) := by
  obtain ⟨h1, h2, h3, h4, h5⟩ := h
  cases op with
  | proc d =>
    exact ⟨dictAllLen_addHist _ _ _ _ h1, h2, h3, h4, h5⟩
  | alarm d =>
    exact ⟨h1, dictAllLen_addHist _ _ _ _ h2, h3, h4, h5⟩
  | status d =>
    exact ⟨h1, h2, dictAllLen_addHist _ _ _ _ h3, h4, h5⟩
  | ml a =>
    exact ⟨h1, h2, h3, dictAllLen_addHist _ _ _ _ h4, h5⟩
  | cmd c =>
    exact ⟨h1, h2, h3, h4, dictAllLen_addHist _ _ _ _ h5⟩
  | ack m a u t =>
    simp only [applyOp, acknowledge_alarm]
    split
    · exact ⟨h1, h2, h3, h4, h5⟩
    · exact ⟨h1, h2, h3, h4, h5⟩
  | res m a u t =>
    simp only [applyOp, resolve_alarm]
    split
    · exact ⟨h1, h2, h3, h4, h5⟩
    · exact ⟨h1, h2, h3, h4, h5⟩
  | getAlarms m =>
    exact ⟨h1, h2, h3, h4, h5⟩
  | getProcHist m l =>
    exact ⟨dictAllLen_dgd_snd _ _ _ h1, h2, h3, h4, h5⟩
  | getAlarmHist m l =>
    exact ⟨h1, dictAllLen_dgd_snd _ _ _ h2, h3, h4, h5⟩
  | cleanup c =>
    exact ⟨h1, h2, h3, dictAllLen_filter _ _ _ h4, h5⟩

theorem histBounded_applyOps (s : DataStore) (ops : List StoreOp)
    (h : HistBounded s) : HistBounded (applyOps s ops) := by
  induction ops generalizing s with
  | nil => exact h
  | cons op rest ih => exact ih (applyOp s op) (histBounded_applyOp s op h)

theorem histBounded_init (n : Nat) : HistBounded (init n) := by
  refine ⟨?_, ?_, ?_, ?_, ?_⟩ <;> intro p hp <;> exact absurd hp (by simp [init])

theorem processHistoryFor_add (s : DataStore) (d : ProcessData) :
    processHistoryFor (s.add_process_data d) d.machine_id =
      boundedAppend s.max_history_size (processHistoryFor s d.machine_id) d := by
  unfold processHistoryFor add_process_data
  simp only [dictGet_dictSet_self, dictGetDefault_fst]
  rfl

theorem alarm_data_add_alarm (s : DataStore) (e : AlarmData) :
    (s.add_alarm_data e).alarm_data =
      dictSet (dictGetDefault s.alarm_data e.machine_id []).2 e.machine_id
        (boundedAppend s.max_history_size
          (dictGetDefault s.alarm_data e.machine_id []).1 s.heap.length) :=
  rfl

theorem status_data_add_status (s : DataStore) (d : StatusData) :
    (s.add_status_data d).status_data =
      dictSet (dictGetDefault s.status_data d.machine_id []).2 d.machine_id
        (boundedAppend s.max_history_size
          (dictGetDefault s.status_data d.machine_id []).1 d) :=
  rfl

theorem ml_alerts_add_ml (s : DataStore) (a : MLAlert) :
    (s.add_ml_alert a).ml_alerts =
      dictSet (dictGetDefault s.ml_alerts a.machine_id []).2 a.machine_id
        (boundedAppend s.max_history_size
          (dictGetDefault s.ml_alerts a.machine_id []).1 a) :=
  rfl

theorem commands_add_command (s : DataStore) (c : ControlCommand) :
    (s.add_command c).commands =
      dictSet (dictGetDefault s.commands c.machine_id []).2 c.machine_id
        (boundedAppend s.max_history_size
          (dictGetDefault s.commands c.machine_id []).1 c) :=
  rfl

/-- The common history-update shape of the `add_*` operations, read back for
the written machine: a bounded append onto the previous history. -/
theorem histAdd_get {α : Type} (m : List (String × List α)) (k : String)
    (x : α) (N : Nat) :
    (dictGet (dictSet (dictGetDefault m k []).2 k
        (boundedAppend N (dictGetDefault m k []).1 x)) k).getD [] =
      boundedAppend N ((dictGet m k).getD []) x := by
  rw [dictGet_dictSet_self, Option.getD_some, dictGetDefault_fst]

end DataStore

/-- C4: (a) starting from a fresh store, no sequence of store operations
ever pushes any machine's history of any kind (process, alarm, status, ML
alert, command) past `max_history_size`; (b)-(f) for each of the five kinds,
an insertion into a history already at capacity evicts exactly the oldest
entry (FIFO): the new history is the old one's tail with the new entry
appended (for the alarm kind, the appended entry is the reference to the
newly allocated event object). -/
theorem history_bounded_fifo :
    (∀ (N : Nat) (ops : List DataStore.StoreOp),
      DataStore.HistBounded (DataStore.applyOps (DataStore.init N) ops)) ∧
    (∀ (s : DataStore) (d : ProcessData), 0 < s.max_history_size →
      (DataStore.processHistoryFor s d.machine_id).length =
        s.max_history_size →
      DataStore.processHistoryFor (s.add_process_data d) d.machine_id =
        (DataStore.processHistoryFor s d.machine_id).tail ++ [d]) ∧
    (∀ (s : DataStore) (d : AlarmData), 0 < s.max_history_size →
      ((dictGet s.alarm_data d.machine_id).getD []).length =
        s.max_history_size →
      (dictGet (s.add_alarm_data d).alarm_data d.machine_id).getD [] =
        ((dictGet s.alarm_data d.machine_id).getD []).tail ++
          [s.heap.length]) ∧
    (∀ (s : DataStore) (d : StatusData), 0 < s.max_history_size →
      ((dictGet s.status_data d.machine_id).getD []).length =
        s.max_history_size →
      (dictGet (s.add_status_data d).status_data d.machine_id).getD [] =
        ((dictGet s.status_data d.machine_id).getD []).tail ++ [d]) ∧
    (∀ (s : DataStore) (a : MLAlert), 0 < s.max_history_size →
      ((dictGet s.ml_alerts a.machine_id).getD []).length =
        s.max_history_size →
      (dictGet (s.add_ml_alert a).ml_alerts a.machine_id).getD [] =
        ((dictGet s.ml_alerts a.machine_id).getD []).tail ++ [a]) ∧
    (∀ (s : DataStore) (c : ControlCommand), 0 < s.max_history_size →
      ((dictGet s.commands c.machine_id).getD []).length =
        s.max_history_size →
      (dictGet (s.add_command c).commands c.machine_id).getD [] =
        ((dictGet s.commands c.machine_id).getD []).tail ++ [c]) := by
  refine ⟨?_, ?_, ?_, ?_, ?_, ?_⟩
  · intro N ops
    exact DataStore.histBounded_applyOps _ ops (DataStore.histBounded_init N)
  · intro s d hpos hfull
    rw [DataStore.processHistoryFor_add]
    exact boundedAppend_full _ _ d hpos hfull
  · intro s d hpos hfull
    rw [DataStore.alarm_data_add_alarm, DataStore.histAdd_get]
    exact boundedAppend_full _ _ _ hpos hfull
  · intro s d hpos hfull
    rw [DataStore.status_data_add_status, DataStore.histAdd_get]
    exact boundedAppend_full _ _ _ hpos hfull
  · intro s a hpos hfull
    rw [DataStore.ml_alerts_add_ml, DataStore.histAdd_get]
    exact boundedAppend_full _ _ _ hpos hfull
  · intro s c hpos hfull
    rw [DataStore.commands_add_command, DataStore.histAdd_get]
    exact boundedAppend_full _ _ _ hpos hfull

/-- Witness for C4: a concrete operation sequence on a capacity-1 store, and
concrete full histories of each of the five kinds evicting their oldest
entry. -/
theorem history_bounded_fifo_witness :
    DataStore.HistBounded (DataStore.applyOps (DataStore.init 1)
      [DataStore.StoreOp.proc
        { machine_id := "M1", timestamp := 1, temperature := 72,
          pressure := 0, flow_rate := 0, motor_speed := 0, vibration := 0,
          power_consumption := 0 },
       DataStore.StoreOp.proc
        { machine_id := "M1", timestamp := 2, temperature := 75,
          pressure := 0, flow_rate := 0, motor_speed := 0, vibration := 0,
          power_consumption := 0 },
       DataStore.StoreOp.alarm
        { machine_id := "M1", timestamp := 3, alarm_id := "A1",
          severity := AlarmSeverity.high, message := "hot" }]) ∧
    DataStore.processHistoryFor
        (((DataStore.init 1).add_process_data
            { machine_id := "M1", timestamp := 1, temperature := 72,
              pressure := 0, flow_rate := 0, motor_speed := 0,
              vibration := 0, power_consumption := 0 }).add_process_data
          { machine_id := "M1", timestamp := 2, temperature := 75,
            pressure := 0, flow_rate := 0, motor_speed := 0, vibration := 0,
            power_consumption := 0 }) "M1" =
      (DataStore.processHistoryFor
        ((DataStore.init 1).add_process_data
          { machine_id := "M1", timestamp := 1, temperature := 72,
            pressure := 0, flow_rate := 0, motor_speed := 0, vibration := 0,
            power_consumption := 0 }) "M1").tail ++
      [{ machine_id := "M1", timestamp := 2, temperature := 75,
         pressure := 0, flow_rate := 0, motor_speed := 0, vibration := 0,
         power_consumption := 0 }] ∧
    (dictGet (((DataStore.init 1).add_alarm_data
          { machine_id := "M1", timestamp := 1, alarm_id := "A1",
            severity := AlarmSeverity.high,
            message := "hot" }).add_alarm_data
        { machine_id := "M1", timestamp := 2, alarm_id := "A2",
          severity := AlarmSeverity.low,
          message := "warm" }).alarm_data "M1").getD [] =
      ((dictGet ((DataStore.init 1).add_alarm_data
          { machine_id := "M1", timestamp := 1, alarm_id := "A1",
            severity := AlarmSeverity.high,
            message := "hot" }).alarm_data "M1").getD []).tail ++
      [((DataStore.init 1).add_alarm_data
          { machine_id := "M1", timestamp := 1, alarm_id := "A1",
            severity := AlarmSeverity.high,
            message := "hot" }).heap.length] ∧
    (dictGet (((DataStore.init 1).add_status_data
          { machine_id := "M1", timestamp := 1,
            status := MachineStatus.running, health_score := 90,
            uptime_percentage := 99 }).add_status_data
        { machine_id := "M1", timestamp := 2, status := MachineStatus.idle,
          health_score := 80, uptime_percentage := 98 }).status_data
        "M1").getD [] =
      ((dictGet ((DataStore.init 1).add_status_data
          { machine_id := "M1", timestamp := 1,
            status := MachineStatus.running, health_score := 90,
            uptime_percentage := 99 }).status_data "M1").getD []).tail ++
      [{ machine_id := "M1", timestamp := 2, status := MachineStatus.idle,
         health_score := 80, uptime_percentage := 98 }] ∧
    (dictGet (((DataStore.init 1).add_ml_alert
          { machine_id := "M1", timestamp := 1,
            severity := AlarmSeverity.low, message := "drift",
            confidence := 1 }).add_ml_alert
        { machine_id := "M1", timestamp := 2,
          severity := AlarmSeverity.high, message := "wear",
          confidence := 1 }).ml_alerts "M1").getD [] =
      ((dictGet ((DataStore.init 1).add_ml_alert
          { machine_id := "M1", timestamp := 1,
            severity := AlarmSeverity.low, message := "drift",
            confidence := 1 }).ml_alerts "M1").getD []).tail ++
      [{ machine_id := "M1", timestamp := 2,
         severity := AlarmSeverity.high, message := "wear",
         confidence := 1 }] ∧
    (dictGet (((DataStore.init 1).add_command
          { machine_id := "M1", command := "start",
            timestamp := 1 }).add_command
        { machine_id := "M1", command := "stop",
          timestamp := 2 }).commands "M1").getD [] =
      ((dictGet ((DataStore.init 1).add_command
          { machine_id := "M1", command := "start",
            timestamp := 1 }).commands "M1").getD []).tail ++
      [{ machine_id := "M1", command := "stop", timestamp := 2 }] :=
  ⟨history_bounded_fifo.1 1 _,
   history_bounded_fifo.2.1 _ _ (by decide) (by decide),
   history_bounded_fifo.2.2.1 _ _ (by decide) (by decide),
   history_bounded_fifo.2.2.2.1 _ _ (by decide) (by decide),
   history_bounded_fifo.2.2.2.2.1 _ _ (by decide) (by decide),
   history_bounded_fifo.2.2.2.2.2 _ _ (by decide) (by decide)⟩

/-! ## Core lemmas for acknowledge and resolve (claims C3, C6, C7) -/

namespace DataStore

theorem heapUpdate_eq (heap : List AlarmData) (q : Nat)
    (f : AlarmData → AlarmData) (a : AlarmData) (h : heap[q]? = some a) :
    heapUpdate heap q f = heap.set q (f a) := by
  unfold heapUpdate
  rw [h]

theorem heapUpdate_get_self (heap : List AlarmData) (q : Nat)
    (f : AlarmData → AlarmData) (a : AlarmData) (h : heap[q]? = some a) :
    (heapUpdate heap q f)[q]? = some (f a) := by
  rw [heapUpdate_eq heap q f a h, List.getElem?_set_self]
  exact (List.getElem?_eq_some.mp h).1

theorem heapUpdate_get_ne (heap : List AlarmData) (q : Nat)
    (f : AlarmData → AlarmData) (r : Nat) (hne : r ≠ q) :
    (heapUpdate heap q f)[r]? = heap[r]? := by
  unfold heapUpdate
  cases hq : heap[q]? with
  | none => rfl
  | some a => exact List.getElem?_set_ne (fun hh => hne hh.symm)

theorem listRemove_cons (heap : List AlarmData) (r : Nat) (rest : List Nat)
    (target : Nat) :
    listRemove heap (r :: rest) target =
      if heap[r]? = heap[target]? then rest
      else r :: listRemove heap rest target := rfl

theorem find?_refs_none (heap : List AlarmData) (refs : List Nat) (A : String)
    (hv : ∀ r ∈ refs, r < heap.length)
    (h : ∀ x ∈ refs.filterMap (fun r => heap[r]?), ¬ x.alarm_id = A) :
    refs.find? (fun r => cellId heap r = some A) = none := by
  induction refs with
  | nil => rfl
  | cons r rest ih =>
    have hr : r < heap.length := hv r (List.mem_cons_self r rest)
    have ha : heap[r]? = some heap[r] := List.getElem?_eq_getElem hr
    have hmem : heap[r] ∈ (r :: rest).filterMap (fun r => heap[r]?) := by
      rw [List.filterMap_cons_some ha]
      exact List.mem_cons_self _ _
    have hpred : ¬ (cellId heap r = some A) := by
      simp only [cellId, ha, Option.map_some]
      simpa using h heap[r] hmem
    rw [List.find?_cons_of_neg rest (by simpa using hpred)]
    exact ih (fun r' h' => hv r' (List.mem_cons_of_mem _ h'))
      (fun x hx => h x (by
        rw [List.filterMap_cons_some ha]
        exact List.mem_cons_of_mem _ hx))

theorem find?_refs_some (heap : List AlarmData) (refs : List Nat) (A : String)
    (hv : ∀ r ∈ refs, r < heap.length) (x : AlarmData)
    (hx : x ∈ refs.filterMap (fun r => heap[r]?)) (hA : x.alarm_id = A) :
    ∃ q, refs.find? (fun r => cellId heap r = some A) = some q := by
  induction refs with
  | nil => simp at hx
  | cons r rest ih =>
    have hr : r < heap.length := hv r (List.mem_cons_self r rest)
    have ha : heap[r]? = some heap[r] := List.getElem?_eq_getElem hr
    by_cases hp : cellId heap r = some A
    · exact ⟨r, List.find?_cons_of_pos rest (by simpa using hp)⟩
    · rw [List.filterMap_cons_some ha, List.mem_cons] at hx
      rcases hx with rfl | hx
      · exact absurd (by simp [cellId, ha, hA]) hp
      · obtain ⟨q, hq⟩ := ih (fun r' h' => hv r' (List.mem_cons_of_mem _ h')) hx
        refine ⟨q, ?_⟩
        rw [List.find?_cons_of_neg rest (by simpa using hp)]
        exact hq

theorem find?_refs_cell (heap : List AlarmData) (refs : List Nat) (A : String)
    (q : Nat)
    (hfind : refs.find? (fun r => cellId heap r = some A) = some q) :
    cellId heap q = some A := by
  simpa using List.find?_some hfind

/-- Effect of the in-place update done by `acknowledge_alarm` on the
dereferenced active list: exactly the first id-matching record is modified,
everything else is untouched. -/
theorem ack_core (heap : List AlarmData) (refs : List Nat) (A : String)
    (f : AlarmData → AlarmData) (q : Nat)
    (hv : ∀ r ∈ refs, r < heap.length) (hnd : refs.Nodup)
    (hfind : refs.find? (fun r => cellId heap r = some A) = some q) :
    refs.filterMap (fun r => (heapUpdate heap q f)[r]?) =
      modFirst (fun x => x.alarm_id = A) f
        (refs.filterMap (fun r => heap[r]?)) := by
  induction refs with
  | nil => simp at hfind
  | cons r rest ih =>
    have hr : r < heap.length := hv r (List.mem_cons_self r rest)
    have ha : heap[r]? = some heap[r] := List.getElem?_eq_getElem hr
    by_cases hp : cellId heap r = some A
    · have hq : q = r := by
        rw [List.find?_cons_of_pos rest (by simpa using hp)] at hfind
        exact (Option.some_inj.mp hfind).symm
      subst hq
      have hAa : heap[q].alarm_id = A := by
        simpa [cellId, ha] using hp
      rw [List.filterMap_cons_some (heapUpdate_get_self heap q f heap[q] ha),
        List.filterMap_cons_some ha]
      unfold modFirst
      rw [if_pos (by simpa using hAa)]
      congr 1
      apply List.filterMap_congr
      intro r' hr'
      exact heapUpdate_get_ne heap q f r'
        (fun hh => (List.nodup_cons.mp hnd).1 (hh ▸ hr'))
    · have hfind' : rest.find? (fun r => cellId heap r = some A) = some q := by
        rw [List.find?_cons_of_neg rest (by simpa using hp)] at hfind
        exact hfind
      have hrq : r ≠ q := by
        intro hh
        exact hp (hh ▸ find?_refs_cell heap rest A q hfind')
      have hpa : ¬ heap[r].alarm_id = A := by
        intro hh
        exact hp (by simp [cellId, ha, hh])
      rw [List.filterMap_cons_some
          (by rw [heapUpdate_get_ne heap q f r hrq]; exact ha),
        List.filterMap_cons_some ha]
      unfold modFirst
      rw [if_neg (by simpa using hpa)]
      congr 1
      exact ih (fun r' h' => hv r' (List.mem_cons_of_mem _ h'))
        (List.nodup_cons.mp hnd).2 hfind'

/-- Effect of `resolve_alarm`'s in-place update plus `list.remove` on the
dereferenced active list: exactly the first id-matching record is
dropped. -/
theorem resolve_core (heap : List AlarmData) (refs : List Nat) (A : String)
    (t : Nat) (q : Nat)
    (hv : ∀ r ∈ refs, r < heap.length) (hnd : refs.Nodup)
    (hunres : ∀ x ∈ refs.filterMap (fun r => heap[r]?), x.resolved = false)
    (hfind : refs.find? (fun r => cellId heap r = some A) = some q) :
    (listRemove (heapUpdate heap q (resolveUpdate t)) refs q).filterMap
        (fun r => (heapUpdate heap q (resolveUpdate t))[r]?) =
      (refs.filterMap (fun r => heap[r]?)).eraseP
        (fun x => x.alarm_id = A) := by
  induction refs with
  | nil => simp at hfind
  | cons r rest ih =>
    have hr : r < heap.length := hv r (List.mem_cons_self r rest)
    have ha : heap[r]? = some heap[r] := List.getElem?_eq_getElem hr
    by_cases hp : cellId heap r = some A
    · have hq : q = r := by
        rw [List.find?_cons_of_pos rest (by simpa using hp)] at hfind
        exact (Option.some_inj.mp hfind).symm
      subst hq
      have hAa : heap[q].alarm_id = A := by
        simpa [cellId, ha] using hp
      rw [listRemove_cons, if_pos rfl, List.filterMap_cons_some ha,
        List.eraseP_cons_of_pos (by simpa using hAa)]
      apply List.filterMap_congr
      intro r' hr'
      exact heapUpdate_get_ne heap q (resolveUpdate t) r'
        (fun hh => (List.nodup_cons.mp hnd).1 (hh ▸ hr'))
    · have hfind' : rest.find? (fun r => cellId heap r = some A) = some q := by
        rw [List.find?_cons_of_neg rest (by simpa using hp)] at hfind
        exact hfind
      have hrq : r ≠ q := by
        intro hh
        exact hp (hh ▸ find?_refs_cell heap rest A q hfind')
      have hpa : ¬ heap[r].alarm_id = A := by
        intro hh
        exact hp (by simp [cellId, ha, hh])
      have hqrest : q ∈ rest := List.mem_of_find?_eq_some hfind'
      have hqlt : q < heap.length := hv q (List.mem_cons_of_mem _ hqrest)
      have haq : heap[q]? = some heap[q] := List.getElem?_eq_getElem hqlt
      have hresr : heap[r].resolved = false :=
        hunres heap[r] (by
          rw [List.filterMap_cons_some ha]
          exact List.mem_cons_self _ _)
      have hne_cell :
          ¬ ((heapUpdate heap q (resolveUpdate t))[r]? =
            (heapUpdate heap q (resolveUpdate t))[q]?) := by
        rw [heapUpdate_get_ne heap q (resolveUpdate t) r hrq, ha,
          heapUpdate_get_self heap q (resolveUpdate t) heap[q] haq]
        intro hh
        have : heap[r] = resolveUpdate t heap[q] := Option.some_inj.mp hh
        rw [this] at hresr
        simp [resolveUpdate] at hresr
      rw [listRemove_cons, if_neg hne_cell,
        List.filterMap_cons_some
          (by rw [heapUpdate_get_ne heap q (resolveUpdate t) r hrq]; exact ha),
        List.filterMap_cons_some ha,
        List.eraseP_cons_of_neg (by simpa using hpa)]
      congr 1
      exact ih (fun r' h' => hv r' (List.mem_cons_of_mem _ h'))
        (List.nodup_cons.mp hnd).2
        (fun x hx => hunres x (by
          rw [List.filterMap_cons_some ha]
          exact List.mem_cons_of_mem _ hx))
        hfind'

end DataStore

/-! ## Claim C3 -/

namespace DataStore

theorem dgd_active_fst (s : DataStore) (m : String) :
    (dictGetDefault s.active_alarms m ([] : List Nat)).1 = activeRefs s m := by
  rw [dictGetDefault_fst]
  rfl

theorem activeAlarmsFor_def (s : DataStore) (m : String) :
    activeAlarmsFor s m =
      (activeRefs s m).filterMap (fun q => s.heap[q]?) := rfl

theorem activeAlarmsFor_reg (s : DataStore)
    (reg : List (String × List Nat)) (m : String) :
    activeAlarmsFor { s with active_alarms := reg } m =
      ((dictGet reg m).getD []).filterMap (fun r => s.heap[r]?) := rfl

theorem activeAlarmsFor_mk (s : DataStore) (heap2 : List AlarmData)
    (reg : List (String × List Nat)) (m : String) :
    activeAlarmsFor { s with heap := heap2, active_alarms := reg } m =
      ((dictGet reg m).getD []).filterMap (fun r => heap2[r]?) := rfl

/-- The auto-vivified registry looks up to the same per-machine lists. -/
theorem dgd_active_lookup (s : DataStore) (m m' : String) :
    (dictGet (dictGetDefault s.active_alarms m ([] : List Nat)).2 m').getD [] =
      activeRefs s m' := by
  by_cases h : m = m'
  · subst h
    rw [dictGet_dictGetDefault_self, Option.getD_some, dgd_active_fst]
  · rw [dictGet_dictGetDefault_ne _ _ _ _ h]
    rfl

end DataStore

/-- C3: `resolve_alarm` on a machine whose active set has no alarm with the
given id returns `false` and leaves every machine's active alarms and the
heap unchanged; when such an alarm is present it returns `true` and removes
exactly the first id-matching alarm from the machine's active set. -/
theorem resolve_alarm_spec (s : DataStore) (m A u : String) (t : Nat)
    (hwf : DataStore.ActWf s m) :
    ((∀ x ∈ DataStore.activeAlarmsFor s m, ¬ x.alarm_id = A) →
      (s.resolve_alarm m A u t).1 = false ∧
      (s.resolve_alarm m A u t).2.heap = s.heap ∧
      ∀ m', DataStore.activeAlarmsFor (s.resolve_alarm m A u t).2 m' =
        DataStore.activeAlarmsFor s m') ∧
    ((∃ x ∈ DataStore.activeAlarmsFor s m, x.alarm_id = A) →
      (s.resolve_alarm m A u t).1 = true ∧
      DataStore.activeAlarmsFor (s.resolve_alarm m A u t).2 m =
        (DataStore.activeAlarmsFor s m).eraseP (fun x => x.alarm_id = A)) := by
  obtain ⟨hv, hnd, hunres⟩ := hwf
  constructor
  · intro hnone
    have hfind : (DataStore.activeRefs s m).find?
        (fun r => DataStore.cellId s.heap r = some A) = none :=
      DataStore.find?_refs_none s.heap _ A hv hnone
    have hres : s.resolve_alarm m A u t =
        (false, { s with active_alarms :=
          (dictGetDefault s.active_alarms m []).2 }) := by
      simp only [DataStore.resolve_alarm, DataStore.dgd_active_fst, hfind]
    rw [hres]
    refine ⟨rfl, rfl, fun m' => ?_⟩
    rw [DataStore.activeAlarmsFor_reg, DataStore.dgd_active_lookup]
    rfl
  · intro hex
    obtain ⟨x, hx, hA⟩ := hex
    obtain ⟨q, hfind⟩ := DataStore.find?_refs_some s.heap _ A hv x hx hA
    have hres : s.resolve_alarm m A u t =
        (true, { s with
          heap := DataStore.heapUpdate s.heap q (DataStore.resolveUpdate t)
          active_alarms :=
            dictSet (dictGetDefault s.active_alarms m []).2 m
              (DataStore.listRemove
                (DataStore.heapUpdate s.heap q (DataStore.resolveUpdate t))
                (DataStore.activeRefs s m) q) }) := by
      simp only [DataStore.resolve_alarm, DataStore.dgd_active_fst, hfind]
    rw [hres]
    refine ⟨rfl, ?_⟩
    rw [DataStore.activeAlarmsFor_mk, dictGet_dictSet_self, Option.getD_some]
    exact DataStore.resolve_core s.heap _ A t q hv hnd hunres hfind

/-- Witness for C3: on a store with one open alarm `A1` for `M1`, resolving
the unknown id `A9` returns false and changes nothing; resolving `A1`
returns true and empties the machine's active set. -/
theorem resolve_alarm_spec_witness :
    (((DataStore.init 5).add_alarm_data
        { machine_id := "M1", timestamp := 1, alarm_id := "A1",
          severity := AlarmSeverity.high,
          message := "hot" }).resolve_alarm "M1" "A9" "op1" 9).1 = false ∧
    (((DataStore.init 5).add_alarm_data
        { machine_id := "M1", timestamp := 1, alarm_id := "A1",
          severity := AlarmSeverity.high,
          message := "hot" }).resolve_alarm "M1" "A1" "op1" 9).1 = true := by
  have hwf : DataStore.ActWf
      ((DataStore.init 5).add_alarm_data
        { machine_id := "M1", timestamp := 1, alarm_id := "A1",
          severity := AlarmSeverity.high, message := "hot" }) "M1" := by
    refine ⟨?_, ?_, ?_⟩ <;> decide
  constructor
  · exact ((resolve_alarm_spec _ "M1" "A9" "op1" 9 hwf).1 (by decide)).1
  · exact ((resolve_alarm_spec _ "M1" "A1" "op1" 9 hwf).2 (by decide)).1

/-! ## Claim C6 -/

theorem dictGetDefault_idem (m : List (String × α)) (k : String) (d : α) :
    dictGetDefault (dictGetDefault m k d).2 k d =
      ((dictGetDefault m k d).1, (dictGetDefault m k d).2) := by
  cases hg : dictGet m k with
  | some v => simp [dictGetDefault, hg]
  | none => simp [dictGetDefault, hg, dictGet_append_self m k d hg]

namespace DataStore

theorem find?_refs_heapUpdate (heap : List AlarmData) (refs : List Nat)
    (A : String) (q : Nat) (f : AlarmData → AlarmData)
    (hfind : refs.find? (fun r => cellId heap r = some A) = some q)
    (hid : cellId (heapUpdate heap q f) q = some A) :
    refs.find? (fun r => cellId (heapUpdate heap q f) r = some A) =
      some q := by
  induction refs with
  | nil => simp at hfind
  | cons r rest ih =>
    by_cases hp : cellId heap r = some A
    · have hq : q = r := by
        rw [List.find?_cons_of_pos rest (by simpa using hp)] at hfind
        exact (Option.some_inj.mp hfind).symm
      subst hq
      exact List.find?_cons_of_pos rest (by simpa using hid)
    · have hfind' : rest.find? (fun r => cellId heap r = some A) = some q := by
        rw [List.find?_cons_of_neg rest (by simpa using hp)] at hfind
        exact hfind
      have hrq : r ≠ q := by
        intro hh
        exact hp (hh ▸ find?_refs_cell heap rest A q hfind')
      have hsame : cellId (heapUpdate heap q f) r = cellId heap r := by
        unfold cellId
        rw [heapUpdate_get_ne heap q f r hrq]
      rw [List.find?_cons_of_neg rest (by simpa [hsame] using hp)]
      exact ih hfind'

theorem heapUpdate_idem (heap : List AlarmData) (q : Nat)
    (f : AlarmData → AlarmData) (hf : ∀ a, f (f a) = f a) :
    heapUpdate (heapUpdate heap q f) q f = heapUpdate heap q f := by
  cases hq : heap[q]? with
  | none =>
    have h1 : heapUpdate heap q f = heap := by
      unfold heapUpdate
      rw [hq]
    rw [h1, h1]
  | some a =>
    have h2 : (heapUpdate heap q f)[q]? = some (f a) :=
      heapUpdate_get_self heap q f a hq
    rw [heapUpdate_eq (heapUpdate heap q f) q f (f a) h2,
      heapUpdate_eq heap q f a hq, List.set_set, hf a]

theorem ackUpdate_idem (u : String) (t : Nat) (a : AlarmData) :
    ackUpdate u t (ackUpdate u t a) = ackUpdate u t a := rfl

theorem ackUpdate_alarm_id (u : String) (t : Nat) (a : AlarmData) :
    (ackUpdate u t a).alarm_id = a.alarm_id := rfl

/-- A second identical `acknowledge_alarm` call on the already-acknowledged
store is a no-op returning `true`. -/
theorem acknowledge_alarm_again (s : DataStore) (m A u : String) (t : Nat)
    (q : Nat)
    (hfind : (activeRefs s m).find?
      (fun r => cellId s.heap r = some A) = some q)
    (hid : cellId (heapUpdate s.heap q (ackUpdate u t)) q = some A) :
    ({ s with
        heap := heapUpdate s.heap q (ackUpdate u t)
        active_alarms :=
          (dictGetDefault s.active_alarms m []).2 } : DataStore
      ).acknowledge_alarm m A u t =
    (true,
      { s with
        heap := heapUpdate s.heap q (ackUpdate u t)
        active_alarms := (dictGetDefault s.active_alarms m []).2 }) := by
  have hdgd := dictGetDefault_idem s.active_alarms m ([] : List Nat)
  have hfind2 :=
    find?_refs_heapUpdate s.heap (activeRefs s m) A q (ackUpdate u t)
      hfind hid
  simp only [acknowledge_alarm, hdgd, dgd_active_fst, hfind2,
    heapUpdate_idem s.heap q (ackUpdate u t) (ackUpdate_idem u t)]

end DataStore

/-- C6: `acknowledge_alarm` returns `true` exactly when the machine has an
active alarm with the given id; in that case it overwrites the first
id-matching alarm's acknowledgment fields in place (and a repeated identical
call is a no-op — idempotence); otherwise it returns `false` and changes no
machine's active alarms and not the heap. -/
theorem acknowledge_alarm_spec (s : DataStore) (m A u : String) (t : Nat)
    (hwf : DataStore.ActWf s m) :
    ((s.acknowledge_alarm m A u t).1 = true ↔
      ∃ x ∈ DataStore.activeAlarmsFor s m, x.alarm_id = A) ∧
    ((∀ x ∈ DataStore.activeAlarmsFor s m, ¬ x.alarm_id = A) →
      (s.acknowledge_alarm m A u t).1 = false ∧
      (s.acknowledge_alarm m A u t).2.heap = s.heap ∧
      ∀ m', DataStore.activeAlarmsFor (s.acknowledge_alarm m A u t).2 m' =
        DataStore.activeAlarmsFor s m') ∧
    ((∃ x ∈ DataStore.activeAlarmsFor s m, x.alarm_id = A) →
      DataStore.activeAlarmsFor (s.acknowledge_alarm m A u t).2 m =
        modFirst (fun x => x.alarm_id = A) (DataStore.ackUpdate u t)
          (DataStore.activeAlarmsFor s m) ∧
      (s.acknowledge_alarm m A u t).2.acknowledge_alarm m A u t =
        (true, (s.acknowledge_alarm m A u t).2)) := by
  obtain ⟨hv, hnd, hunres⟩ := hwf
  have hnocase : (∀ x ∈ DataStore.activeAlarmsFor s m, ¬ x.alarm_id = A) →
      (s.acknowledge_alarm m A u t).1 = false ∧
      (s.acknowledge_alarm m A u t).2.heap = s.heap ∧
      ∀ m', DataStore.activeAlarmsFor (s.acknowledge_alarm m A u t).2 m' =
        DataStore.activeAlarmsFor s m' := by
    intro hnone
    have hfind : (DataStore.activeRefs s m).find?
        (fun r => DataStore.cellId s.heap r = some A) = none :=
      DataStore.find?_refs_none s.heap _ A hv hnone
    have hres : s.acknowledge_alarm m A u t =
        (false, { s with active_alarms :=
          (dictGetDefault s.active_alarms m []).2 }) := by
      simp only [DataStore.acknowledge_alarm, DataStore.dgd_active_fst, hfind]
    rw [hres]
    refine ⟨rfl, rfl, fun m' => ?_⟩
    rw [DataStore.activeAlarmsFor_reg, DataStore.dgd_active_lookup]
    rfl
  have hyescase : (∃ x ∈ DataStore.activeAlarmsFor s m, x.alarm_id = A) →
      (s.acknowledge_alarm m A u t).1 = true ∧
      DataStore.activeAlarmsFor (s.acknowledge_alarm m A u t).2 m =
        modFirst (fun x => x.alarm_id = A) (DataStore.ackUpdate u t)
          (DataStore.activeAlarmsFor s m) ∧
      (s.acknowledge_alarm m A u t).2.acknowledge_alarm m A u t =
        (true, (s.acknowledge_alarm m A u t).2) := by
    intro hex
    obtain ⟨x, hx, hA⟩ := hex
    obtain ⟨q, hfind⟩ := DataStore.find?_refs_some s.heap _ A hv x hx hA
    have hres : s.acknowledge_alarm m A u t =
        (true, { s with
          heap := DataStore.heapUpdate s.heap q (DataStore.ackUpdate u t)
          active_alarms := (dictGetDefault s.active_alarms m []).2 }) := by
      simp only [DataStore.acknowledge_alarm, DataStore.dgd_active_fst, hfind]
    have hcell := DataStore.find?_refs_cell s.heap _ A q hfind
    have hqmem : q ∈ DataStore.activeRefs s m :=
      List.mem_of_find?_eq_some hfind
    have hqlt : q < s.heap.length := hv q hqmem
    have haq : s.heap[q]? = some s.heap[q] := List.getElem?_eq_getElem hqlt
    have hid : DataStore.cellId
        (DataStore.heapUpdate s.heap q (DataStore.ackUpdate u t)) q =
        some A := by
      unfold DataStore.cellId
      rw [DataStore.heapUpdate_get_self s.heap q _ s.heap[q] haq]
      unfold DataStore.cellId at hcell
      rw [haq] at hcell
      simpa using hcell
    rw [hres]
    refine ⟨rfl, ?_, ?_⟩
    · rw [DataStore.activeAlarmsFor_mk, DataStore.dgd_active_lookup]
      exact DataStore.ack_core s.heap _ A (DataStore.ackUpdate u t) q hv hnd
        hfind
    · exact DataStore.acknowledge_alarm_again s m A u t q hfind hid
  refine ⟨⟨?_, fun hex => (hyescase hex).1⟩,
    hnocase, fun hex => (hyescase hex).2⟩
  intro htrue
  by_cases hex : ∃ x ∈ DataStore.activeAlarmsFor s m, x.alarm_id = A
  · exact hex
  · push_neg at hex
    rw [(hnocase hex).1] at htrue
    exact absurd htrue (by simp)

/-- Witness for C6 on a store with one open alarm `A1` for `M1`. -/
theorem acknowledge_alarm_spec_witness :
    (((DataStore.init 5).add_alarm_data
        { machine_id := "M1", timestamp := 1, alarm_id := "A1",
          severity := AlarmSeverity.high,
          message := "hot" }).acknowledge_alarm "M1" "A1" "op1" 7).1 = true ↔
    ∃ x ∈ DataStore.activeAlarmsFor
        ((DataStore.init 5).add_alarm_data
          { machine_id := "M1", timestamp := 1, alarm_id := "A1",
            severity := AlarmSeverity.high, message := "hot" }) "M1",
      x.alarm_id = "A1" :=
  (acknowledge_alarm_spec _ "M1" "A1" "op1" 7
    (by refine ⟨?_, ?_, ?_⟩ <;> decide)).1

/-! ## Claim C7 -/

namespace DataStore

theorem alarmHistoryFor_def (s : DataStore) (m : String) :
    alarmHistoryFor s m =
      ((dictGet s.alarm_data m).getD []).filterMap (fun q => s.heap[q]?) :=
  rfl

end DataStore

/-- C7: for any machine and alarm id, after ingesting an open alarm event,
acknowledging it and then resolving it (same actor), the alarm is gone from
the active set while the archived record in the machine's alarm-history
audit log retains both the `acknowledged_by` of the acknowledgment and the
`resolved_at` of the resolution (the history and the registry alias the same
object). -/
theorem ack_resolve_archive (d : AlarmData) (u : String) (t1 t2 N : Nat)
    (hres : d.resolved = false) (hN : 0 < N) :
    DataStore.activeAlarmsFor
        (((((DataStore.init N).add_alarm_data d).acknowledge_alarm
              d.machine_id d.alarm_id u t1).2.resolve_alarm
            d.machine_id d.alarm_id u t2).2) d.machine_id = [] ∧
    ∃ x ∈ DataStore.alarmHistoryFor
        (((((DataStore.init N).add_alarm_data d).acknowledge_alarm
              d.machine_id d.alarm_id u t1).2.resolve_alarm
            d.machine_id d.alarm_id u t2).2) d.machine_id,
      x.alarm_id = d.alarm_id ∧ x.acknowledged_by = some u ∧
        x.resolved_at = some t2 := by
  set s1 : DataStore := (DataStore.init N).add_alarm_data d with hs1
  have hheap1 : s1.heap = [d] := rfl
  have hact1 : DataStore.activeRefs s1 d.machine_id = [0] := by
    rw [hs1, DataStore.activeRefs_add_alarm, if_pos hres]
    rfl
  have hhist1 : dictGet s1.alarm_data d.machine_id = some [0] := by
    rw [hs1, DataStore.alarm_data_add_alarm, dictGet_dictSet_self]
    congr 1
    show boundedAppend N [] 0 = [0]
    unfold boundedAppend
    rw [if_neg (by simpa using Nat.not_lt.mpr hN)]
    rfl
  have hfind1 : (DataStore.activeRefs s1 d.machine_id).find?
      (fun r => DataStore.cellId s1.heap r = some d.alarm_id) = some 0 := by
    rw [hact1, hheap1]
    apply List.find?_cons_of_pos
    simp [DataStore.cellId]
  have hs2 : s1.acknowledge_alarm d.machine_id d.alarm_id u t1 =
      (true, { s1 with
        heap := DataStore.heapUpdate s1.heap 0 (DataStore.ackUpdate u t1)
        active_alarms :=
          (dictGetDefault s1.active_alarms d.machine_id []).2 }) := by
    simp only [DataStore.acknowledge_alarm, DataStore.dgd_active_fst, hfind1]
  rw [hs2]
  have hheap2 : DataStore.heapUpdate s1.heap 0 (DataStore.ackUpdate u t1) =
      [DataStore.ackUpdate u t1 d] := by
    rw [hheap1, DataStore.heapUpdate_eq [d] 0 _ d rfl]
    rfl
  have hfind2 : (DataStore.activeRefs s1 d.machine_id).find?
      (fun r => DataStore.cellId
        (DataStore.heapUpdate s1.heap 0 (DataStore.ackUpdate u t1)) r =
        some d.alarm_id) = some 0 := by
    rw [hact1, hheap2]
    apply List.find?_cons_of_pos
    simp [DataStore.cellId, DataStore.ackUpdate]
  have hs3 : ({ s1 with
      heap := DataStore.heapUpdate s1.heap 0 (DataStore.ackUpdate u t1)
      active_alarms :=
        (dictGetDefault s1.active_alarms d.machine_id []).2 } : DataStore
      ).resolve_alarm d.machine_id d.alarm_id u t2 =
      (true, { s1 with
        heap := DataStore.heapUpdate
          (DataStore.heapUpdate s1.heap 0 (DataStore.ackUpdate u t1)) 0
          (DataStore.resolveUpdate t2)
        active_alarms :=
          dictSet (dictGetDefault s1.active_alarms d.machine_id []).2
            d.machine_id
            (DataStore.listRemove
              (DataStore.heapUpdate
                (DataStore.heapUpdate s1.heap 0 (DataStore.ackUpdate u t1)) 0
                (DataStore.resolveUpdate t2))
              (DataStore.activeRefs s1 d.machine_id) 0) }) := by
    simp only [DataStore.resolve_alarm, dictGetDefault_idem,
      DataStore.dgd_active_fst, hfind2]
  rw [hs3]
  have hheap3 : DataStore.heapUpdate
      (DataStore.heapUpdate s1.heap 0 (DataStore.ackUpdate u t1)) 0
      (DataStore.resolveUpdate t2) =
      [DataStore.resolveUpdate t2 (DataStore.ackUpdate u t1 d)] := by
    rw [hheap2, DataStore.heapUpdate_eq [DataStore.ackUpdate u t1 d] 0 _
      (DataStore.ackUpdate u t1 d) rfl]
    rfl
  have hrem : DataStore.listRemove
      (DataStore.heapUpdate
        (DataStore.heapUpdate s1.heap 0 (DataStore.ackUpdate u t1)) 0
        (DataStore.resolveUpdate t2))
      (DataStore.activeRefs s1 d.machine_id) 0 = [] := by
    rw [hact1, DataStore.listRemove_cons, if_pos rfl]
  constructor
  · rw [DataStore.activeAlarmsFor_mk, hrem, dictGet_dictSet_self]
    rfl
  · refine ⟨DataStore.resolveUpdate t2 (DataStore.ackUpdate u t1 d),
      ?_, rfl, rfl, rfl⟩
    rw [DataStore.alarmHistoryFor_def]
    have hhist3 : dictGet
        ({ s1 with
          heap := DataStore.heapUpdate
            (DataStore.heapUpdate s1.heap 0 (DataStore.ackUpdate u t1)) 0
            (DataStore.resolveUpdate t2)
          active_alarms :=
            dictSet (dictGetDefault s1.active_alarms d.machine_id []).2
              d.machine_id
              (DataStore.listRemove
                (DataStore.heapUpdate
                  (DataStore.heapUpdate s1.heap 0
                    (DataStore.ackUpdate u t1)) 0
                  (DataStore.resolveUpdate t2))
                (DataStore.activeRefs s1 d.machine_id) 0) } :
          DataStore).alarm_data d.machine_id = some [0] := hhist1
    rw [hhist3]
    show (DataStore.resolveUpdate t2 (DataStore.ackUpdate u t1 d)) ∈
      ([0] : List Nat).filterMap (fun q =>
        (DataStore.heapUpdate
          (DataStore.heapUpdate s1.heap 0 (DataStore.ackUpdate u t1)) 0
          (DataStore.resolveUpdate t2))[q]?)
    rw [hheap3]
    simp

/-- Witness for C7 at a concrete open alarm, actor `"op1"`, acknowledge time
3, resolve time 9, capacity 5. -/
theorem ack_resolve_archive_witness :
    DataStore.activeAlarmsFor
        (((((DataStore.init 5).add_alarm_data
              { machine_id := "M1", timestamp := 1, alarm_id := "A1",
                severity := AlarmSeverity.critical,
                message := "hot" }).acknowledge_alarm
              "M1" "A1" "op1" 3).2.resolve_alarm "M1" "A1" "op1" 9).2)
        "M1" = [] ∧
    ∃ x ∈ DataStore.alarmHistoryFor
        (((((DataStore.init 5).add_alarm_data
              { machine_id := "M1", timestamp := 1, alarm_id := "A1",
                severity := AlarmSeverity.critical,
                message := "hot" }).acknowledge_alarm
              "M1" "A1" "op1" 3).2.resolve_alarm "M1" "A1" "op1" 9).2)
        "M1",
      x.alarm_id = "A1" ∧ x.acknowledged_by = some "op1" ∧
        x.resolved_at = some 9 :=
  ack_resolve_archive
    { machine_id := "M1", timestamp := 1, alarm_id := "A1",
      severity := AlarmSeverity.critical, message := "hot" }
    "op1" 3 9 5 rfl (by decide)

/-! ## Claim C2 -/

namespace WSManager

theorem broadcast_foldl_fst (failing : Nat → Bool) (now : Nat)
    (l : List Nat) (acc : List Nat × List Nat × List (Nat × ConnInfo)) :
    (l.foldl (broadcastStep failing now) acc).1 =
      acc.1 ++ l.filter (fun c => !failing c) := by
  induction l generalizing acc with
  | nil => simp
  | cons c rest ih =>
    rw [List.foldl_cons]
    cases hf : failing c with
    | true =>
      simp only [broadcastStep, sendText, hf]
      rw [ih]
      simp [List.filter_cons, hf]
    | false =>
      simp only [broadcastStep, sendText, hf]
      rw [ih]
      simp [List.filter_cons, hf]

theorem broadcast_foldl_disc (failing : Nat → Bool) (now : Nat)
    (l : List Nat) (acc : List Nat × List Nat × List (Nat × ConnInfo)) :
    (l.foldl (broadcastStep failing now) acc).2.1 =
      acc.2.1 ++ l.filter failing := by
  induction l generalizing acc with
  | nil => simp
  | cons c rest ih =>
    rw [List.foldl_cons]
    cases hf : failing c with
    | true =>
      simp only [broadcastStep, sendText, hf]
      rw [ih]
      simp [List.filter_cons, hf]
    | false =>
      simp only [broadcastStep, sendText, hf]
      rw [ih]
      simp [List.filter_cons, hf]

theorem foldl_disconnect_active (ds : List Nat) (mgr : WSManager) :
    (ds.foldl (fun m c => disconnect m c) mgr).active_connections =
      ds.foldl (fun l c => l.erase c) mgr.active_connections := by
  induction ds generalizing mgr with
  | nil => rfl
  | cons c rest ih =>
    rw [List.foldl_cons, List.foldl_cons, ih]
    rfl

theorem foldl_erase_eq_filter (ds : List Nat) (l : List Nat) (hl : l.Nodup)
    (hd : ds.Nodup) (hsub : ∀ c ∈ ds, c ∈ l) :
    ds.foldl (fun acc c => acc.erase c) l =
      l.filter (fun c => decide (c ∉ ds)) := by
  induction ds generalizing l with
  | nil => simp
  | cons x rest ih =>
    rw [List.foldl_cons]
    have hnd := List.nodup_cons.mp hd
    have hsub' : ∀ c ∈ rest, c ∈ l.erase x := by
      intro c hc
      refine (List.mem_erase_of_ne ?_).mpr
        (hsub c (List.mem_cons_of_mem _ hc))
      intro hh
      subst hh
      exact hnd.1 hc
    rw [ih (l.erase x) (hl.erase x) hnd.2 hsub', hl.erase_eq_filter x,
      List.filter_filter]
    apply List.filter_congr
    intro c hc
    by_cases h1 : c = x <;> by_cases h2 : c ∈ rest <;> simp [h1, h2]

theorem broadcast_eq (mgr : WSManager) (failing : Nat → Bool) (now : Nat)
    (h : ¬ mgr.active_connections = []) :
    mgr.broadcast failing now =
      ((mgr.active_connections.foldl (broadcastStep failing now)
          ([], [], mgr.connection_info)).2.1.foldl
          (fun m c => disconnect m c)
          { mgr with connection_info :=
            (mgr.active_connections.foldl (broadcastStep failing now)
              ([], [], mgr.connection_info)).2.2 },
       (mgr.active_connections.foldl (broadcastStep failing now)
          ([], [], mgr.connection_info)).1) := by
  rw [broadcast, if_neg h]

end WSManager

/-- C2: `broadcast` attempts delivery to every client in a point-in-time
copy of the registry; exactly the clients whose connection is healthy
receive the event, exactly the failing clients are removed from the
registry, and the call returns normally (it is a total function — every
per-client send failure is caught). -/
theorem broadcast_failure_isolation (mgr : WSManager)
    (failing : Nat → Bool) (now : Nat)
    (hnd : mgr.active_connections.Nodup) :
    (mgr.broadcast failing now).2 =
      mgr.active_connections.filter (fun c => !failing c) ∧
    (mgr.broadcast failing now).1.active_connections =
      mgr.active_connections.filter (fun c => !failing c) := by
  by_cases hemp : mgr.active_connections = []
  · rw [WSManager.broadcast, if_pos hemp, hemp]
    exact ⟨rfl, rfl⟩
  · rw [WSManager.broadcast_eq mgr failing now hemp]
    constructor
    · rw [WSManager.broadcast_foldl_fst]
      rfl
    · show (List.foldl (fun m c => WSManager.disconnect m c) _ _
        ).active_connections = _
      rw [WSManager.foldl_disconnect_active, WSManager.broadcast_foldl_disc]
      have hdisc : (List.filter failing mgr.active_connections).Nodup :=
        hnd.filter failing
      have hsub : ∀ c ∈ List.filter failing mgr.active_connections,
          c ∈ mgr.active_connections :=
        fun c hc => (List.mem_filter.mp hc).1
      rw [show (({ mgr with
          connection_info := (mgr.active_connections.foldl
            (WSManager.broadcastStep failing now)
            ([], [], mgr.connection_info)).2.2 } :
          WSManager)).active_connections = mgr.active_connections from rfl]
      rw [show ([] : List Nat) ++
          List.filter failing mgr.active_connections =
          List.filter failing mgr.active_connections from rfl]
      rw [WSManager.foldl_erase_eq_filter _ _ hnd hdisc hsub]
      apply List.filter_congr
      intro c hc
      by_cases hf : failing c <;> simp [List.mem_filter, hf, hc]

/-- Witness for C2: three registered clients, client 2's connection broken —
clients 1 and 3 receive the event, client 2 alone is dropped. -/
theorem broadcast_failure_isolation_witness :
    ((((WSManager.init.connect 1 0).connect 2 0).connect 3 0).broadcast
        (fun c => c == 2) 5).2 =
      (((WSManager.init.connect 1 0).connect 2 0).connect
        3 0).active_connections.filter (fun c => !(c == 2)) ∧
    ((((WSManager.init.connect 1 0).connect 2 0).connect 3 0).broadcast
        (fun c => c == 2) 5).1.active_connections =
      (((WSManager.init.connect 1 0).connect 2 0).connect
        3 0).active_connections.filter (fun c => !(c == 2)) :=
  broadcast_failure_isolation _ (fun c => c == 2) 5 (by decide)

/-! ## Claim C8 -/

/-- C8 counterexample: `get_machine_alarms` returns a shallow copy — the
record references are shared.  On a store with one active alarm, setting the
`acknowledged` field of the record reached through the returned reference
changes the active-alarm state the store reports afterwards, refuting "no
mutation a caller performs on a returned value can change the store's
internal state". -/
theorem snapshot_copy_counterexample :
    ¬ (DataStore.activeAlarmsFor
        ({ (((DataStore.init 10).add_alarm_data
              { machine_id := "M1", timestamp := 1, alarm_id := "A1",
                severity := AlarmSeverity.high,
                message := "hot" }).get_machine_alarms "M1").2 with
            heap := DataStore.heapUpdate
              (((DataStore.init 10).add_alarm_data
                { machine_id := "M1", timestamp := 1, alarm_id := "A1",
                  severity := AlarmSeverity.high,
                  message := "hot" }).get_machine_alarms "M1").2.heap
              ((((DataStore.init 10).add_alarm_data
                { machine_id := "M1", timestamp := 1, alarm_id := "A1",
                  severity := AlarmSeverity.high,
                  message := "hot" }).get_machine_alarms "M1").1.headD 0)
              (fun a => { a with acknowledged := true }) } : DataStore)
        "M1" =
      DataStore.activeAlarmsFor
        (((DataStore.init 10).add_alarm_data
          { machine_id := "M1", timestamp := 1, alarm_id := "A1",
            severity := AlarmSeverity.high,
            message := "hot" }).get_machine_alarms "M1").2 "M1") := by
  decide

namespace DataStore

/-- Mutating a field of an alarm record through a shared reference changes
the machine's reported active alarms. -/
theorem mutation_visible (s : DataStore) (m : String) (q : Nat)
    (rest : List Nat) (a : AlarmData)
    (hrefs : activeRefs s m = q :: rest) (hcell : s.heap[q]? = some a)
    (hack : a.acknowledged = false) :
    ¬ (activeAlarmsFor
        ({ s with
          heap := heapUpdate s.heap q
            (fun x => { x with acknowledged := true }) } : DataStore) m =
      activeAlarmsFor s m) := by
  intro heq
  rw [activeAlarmsFor_def, activeAlarmsFor_def] at heq
  rw [show activeRefs
      ({ s with
        heap := heapUpdate s.heap q
          (fun x => { x with acknowledged := true }) } : DataStore) m =
      q :: rest from hrefs] at heq
  rw [hrefs] at heq
  have hmut : (({ s with
      heap := heapUpdate s.heap q
        (fun x => { x with acknowledged := true }) } : DataStore)).heap[q]? =
      some { a with acknowledged := true } :=
    heapUpdate_get_self s.heap q _ a hcell
  rw [List.filterMap_cons_some hmut, List.filterMap_cons_some hcell] at heq
  have h1 : ({ a with acknowledged := true } : AlarmData) = a :=
    (List.cons.injEq _ _ _ _).mp heq |>.1
  have h2 := congrArg AlarmData.acknowledged h1
  rw [hack] at h2
  simp at h2

end DataStore

/-- C8 amended: every snapshot accessor returns a fresh top-level container
whose entries are the store's own records — a shallow copy.
`get_machine_alarms` returns exactly the registry's reference list (and the
read leaves the registry unchanged), `get_active_alarms` returns exactly the
registry's per-machine reference lists, and `get_latest_process_data`
returns exactly the cached records.  For the mutable alarm records the
sharing is observable: mutating a field of a record reached through a
reference returned by either alarm accessor changes the active alarms the
store subsequently reports.  (`ProcessData` records are shared the same way
in the source but no store operation ever mutates one, which is why the
embedding gives them value semantics.) -/
theorem snapshot_shallow_copy_semantics (s : DataStore) (m : String) :
    (s.get_machine_alarms m).1 = DataStore.activeRefs s m ∧
    DataStore.activeRefs (s.get_machine_alarms m).2 m =
      DataStore.activeRefs s m ∧
    DataStore.get_active_alarms s = s.active_alarms ∧
    DataStore.get_latest_process_data s = s.latest_process ∧
    (∀ (q : Nat) (rest : List Nat) (a : AlarmData),
      (s.get_machine_alarms m).1 = q :: rest → s.heap[q]? = some a →
      a.acknowledged = false →
      ¬ (DataStore.activeAlarmsFor
          ({ (s.get_machine_alarms m).2 with
            heap := DataStore.heapUpdate s.heap q
              (fun x => { x with acknowledged := true }) } : DataStore) m =
        DataStore.activeAlarmsFor (s.get_machine_alarms m).2 m)) ∧
    (∀ (q : Nat) (rest : List Nat) (a : AlarmData),
      dictGet (DataStore.get_active_alarms s) m = some (q :: rest) →
      s.heap[q]? = some a → a.acknowledged = false →
      ¬ (DataStore.activeAlarmsFor
          ({ s with
            heap := DataStore.heapUpdate s.heap q
              (fun x => { x with acknowledged := true }) } : DataStore) m =
        DataStore.activeAlarmsFor s m)) := by
  refine ⟨DataStore.dgd_active_fst s m, ?_, rfl, rfl, ?_, ?_⟩
  · show (dictGet (dictGetDefault s.active_alarms m []).2 m).getD [] = _
    rw [DataStore.dgd_active_lookup]
  · intro q rest a hlist hcell hack
    have hrefs : DataStore.activeRefs s m = q :: rest := by
      rw [← DataStore.dgd_active_fst s m]
      exact hlist
    have hrefs2 : DataStore.activeRefs (s.get_machine_alarms m).2 m =
        q :: rest := by
      show (dictGet (dictGetDefault s.active_alarms m []).2 m).getD [] = _
      rw [DataStore.dgd_active_lookup, hrefs]
    exact DataStore.mutation_visible ((s.get_machine_alarms m).2) m q rest a
      hrefs2 hcell hack
  · intro q rest a hdict hcell hack
    have hrefs : DataStore.activeRefs s m = q :: rest := by
      rw [DataStore.activeRefs_def,
        show dictGet s.active_alarms m = some (q :: rest) from hdict]
      rfl
    exact DataStore.mutation_visible s m q rest a hrefs hcell hack

/-- Witness for C8's amended theorem on a store with one active alarm. -/
theorem snapshot_shallow_copy_semantics_witness :
    ¬ (DataStore.activeAlarmsFor
        ({ (((DataStore.init 10).add_alarm_data
              { machine_id := "M1", timestamp := 1, alarm_id := "A1",
                severity := AlarmSeverity.high,
                message := "hot" }).get_machine_alarms "M1").2 with
            heap := DataStore.heapUpdate
              ((DataStore.init 10).add_alarm_data
                { machine_id := "M1", timestamp := 1, alarm_id := "A1",
                  severity := AlarmSeverity.high, message := "hot" }).heap
              0 (fun x => { x with acknowledged := true }) } : DataStore)
        "M1" =
      DataStore.activeAlarmsFor
        (((DataStore.init 10).add_alarm_data
          { machine_id := "M1", timestamp := 1, alarm_id := "A1",
            severity := AlarmSeverity.high,
            message := "hot" }).get_machine_alarms "M1").2 "M1") :=
  (snapshot_shallow_copy_semantics
    ((DataStore.init 10).add_alarm_data
      { machine_id := "M1", timestamp := 1, alarm_id := "A1",
        severity := AlarmSeverity.high, message := "hot" }) "M1").2.2.2.2.1
    0 [] _ rfl rfl rfl
